import Mathlib

/-!
Formal model of the f3dasm experiment ledger and job-state engine.

The definitions below are a shallow embedding of the code in
`src/f3dasm/_src/design/experimentdata.py` and
`src/f3dasm/_src/experimentdata/_io.py`.  The component classes `_Data`,
`_JobQueue`, `Domain` and `ExperimentSample` (files `_data.py`,
`_jobqueue.py`, `domain.py`, `experimentsample.py`) are not part of the
source tree that was provided; their operations are modelled from the
specification and are marked `Modelled from the spec:` in their doc
comments.  Everything else follows the Python source line by line.
-/

/-- Job status of a single row.  Modelled from the spec: the `Status`
enumeration of `_jobqueue.py` (missing from the source tree), drawn from
the finite set {OPEN, IN_PROGRESS, FINISHED, ERROR}. -/
inductive Status where
  | OPEN
  | IN_PROGRESS
  | FINISHED
  | ERROR
deriving DecidableEq, Repr

/-- A cell value of the input or output table: either unset (NaN-equivalent),
a string, or an integer.  Scalar payloads only; enough to express the
sentinel string value used by `set_error`. -/
inductive CellVal where
  | na
  | vstr (s : String)
  | vint (n : Int)
deriving DecidableEq, Repr

/-- Modelled from the spec: the `_Data` record store of `_data.py` (missing
from the source tree) — a mapping from column name to one value per row.
Rows are kept positionally (the spec reindexes rows to be contiguous from
0), each row aligned with `cols`. -/
structure RecData where
  cols : List String
  rows : List (List CellVal)
deriving DecidableEq, Repr

/-- Modelled from the spec: the `Domain` schema of `domain.py` (missing from
the source tree) — an ordered mapping from input-column name to a parameter
specification, opaque to the core, so only the names are kept. -/
structure DomainT where
  names : List String
deriving DecidableEq, Repr

/-- Modelled from the spec: the single-row view `ExperimentSample` of
`experimentsample.py` (missing from the source tree): named inputs, named
outputs and the row position (`_jobnumber`). -/
structure ExperimentSample where
  input_data : List (String × CellVal)
  output_data : List (String × CellVal)
  jobnumber : Nat
deriving DecidableEq, Repr

/-- The experiment ledger aggregate: `ExperimentData.__init__` owns an input
record store, an output record store, one job status per row, a schema and a
base filename (src lines 119-163). -/
structure ExperimentData where
  input_data : RecData
  output_data : RecData
  jobs : List Status
  domain : DomainT
  filename : String
deriving DecidableEq, Repr

/-- Errors surfaced by ledger operations: `NoOpenJobsError` (from
`_jobqueue.py`), a `KeyError`-class error from a point update on an absent
column, and an arbitrary evaluator exception. -/
inductive EDErr where
  | noOpenJobs
  | keyError (column : String)
  | genError (msg : String)
deriving DecidableEq, Repr

/-- Modelled from the spec: `_JobQueue.get_open_job` of `_jobqueue.py`
(missing from the source tree) returns the lowest-index row currently OPEN
and fails with `NoOpenJobs` when none exists.  Auxiliary recursion carrying
the index offset. -/
def getOpenJobAux : List Status → Nat → Except EDErr Nat
  | [], _ => .error .noOpenJobs
  | s :: rest, k => if s = Status.OPEN then .ok k else getOpenJobAux rest (k + 1)

/-- Modelled from the spec: `_JobQueue.get_open_job`, lowest-index OPEN row
or `NoOpenJobs`. -/
def get_open_job (jobs : List Status) : Except EDErr Nat :=
  getOpenJobAux jobs 0

/-- Number of OPEN rows of a status table; measures the fuel needed by the
driver loops, which claim one OPEN row per iteration and never create an
OPEN row. -/
def countOpen : List Status → Nat
  | [] => 0
  | s :: rest => (if s = Status.OPEN then 1 else 0) + countOpen rest

/-- Modelled from the spec: `_Data.get_data_dict(index)` of `_data.py`
(missing from the source tree) returns the full row as a name-to-value
mapping. -/
def get_data_dict (d : RecData) (index : Nat) : List (String × CellVal) :=
  d.cols.zip (d.rows.getD index [])

/-- `ExperimentData.get_experiment_sample` (src lines 753-768): materializes
the single-row view at `index` from the input and output stores. -/
def get_experiment_sample (ed : ExperimentData) (index : Nat) : ExperimentSample :=
  { input_data := get_data_dict ed.input_data index
    output_data := get_data_dict ed.output_data index
    jobnumber := index }

/-- `ExperimentData.access_open_job_data` (src lines 796-807): claim the
lowest-index open row, mark it IN_PROGRESS, and return its single-row view.
State-passing form: the second component is the ledger after the call, which
is unchanged when `NoOpenJobs` is raised (the raise happens before any
mutation). -/
def access_open_job_data (ed : ExperimentData) :
    Except EDErr ExperimentSample × ExperimentData :=
  match get_open_job ed.jobs with
  | .error e => (.error e, ed)
  | .ok i =>
      let ed1 : ExperimentData := { ed with jobs := ed.jobs.set i Status.IN_PROGRESS }
      (.ok (get_experiment_sample ed1 i), ed1)

/-- Modelled from the spec: `_Data.set_data(index, value)` without a column
argument, as called by `set_error` (src line 833) — a whole-row point update
that writes `value` into every column of row `index` and never raises
(pandas `.loc[index] = value` semantics). -/
def set_data_row (d : RecData) (index : Nat) (value : CellVal) : RecData :=
  { d with rows := d.rows.set index (d.cols.map fun _ => value) }

/-- Position of a column name in a column list (first occurrence). -/
def colIndex : List String → String → Option Nat
  | [], _ => none
  | c :: rest, column =>
      if c = column then some 0 else (colIndex rest column).map (· + 1)

/-- Modelled from the spec: `_Data.set_data(index, value, column)` of
`_data.py` (missing from the source tree) — a point update that fails with a
`KeyError`-class error if the column is absent. -/
def set_data_col (d : RecData) (index : Nat) (value : CellVal) (column : String) :
    Except EDErr RecData :=
  match colIndex d.cols column with
  | none => .error (.keyError column)
  | some j => .ok { d with rows := d.rows.set index ((d.rows.getD index []).set j value) }

/-- `ExperimentData.set_error` (src lines 824-833): mark the job status at
`index` as ERROR (last-writer-wins, regardless of the current status) and
set the whole output row to the sentinel string value. -/
def set_error (ed : ExperimentData) (index : Nat) : ExperimentData :=
  { ed with
    jobs := ed.jobs.set index Status.ERROR
    output_data := set_data_row ed.output_data index (CellVal.vstr "ERROR") }

/-- The column loop of `ExperimentData.set_experiment_sample` (src lines
779-780): write each output item of the view into the output store, stopping
at the first absent column.  The second component is the store after the
call, including partial writes made before a failure. -/
def set_outputs : RecData → Nat → List (String × CellVal) → Except EDErr Unit × RecData
  | d, _, [] => (.ok (), d)
  | d, index, (column, value) :: rest =>
      match set_data_col d index value column with
      | .error e => (.error e, d)
      | .ok d' => set_outputs d' index rest

/-- `ExperimentData.set_experiment_sample` (src lines 770-782): write every
output value of the view back into the output store, then mark the row
FINISHED.  When a column write raises, the status is not touched and the
partially updated store is kept (in-memory mutation). -/
def set_experiment_sample (ed : ExperimentData) (s : ExperimentSample) :
    Except EDErr Unit × ExperimentData :=
  match set_outputs ed.output_data s.jobnumber s.output_data with
  | (.error e, out') => (.error e, { ed with output_data := out' })
  | (.ok _, out') =>
      (.ok (), { ed with
        output_data := out'
        jobs := ed.jobs.set s.jobnumber Status.FINISHED })

/-- A data generator under the evaluator contract (src lines 94-96,
spec section 6): consumes a single-row view and either returns a view with
outputs populated or raises. -/
def DataGen : Type :=
  ExperimentSample → Except EDErr ExperimentSample

/-- Body of one iteration of the `while True` loop of
`ExperimentData._run_sequential` (src lines 920-935): run the evaluator on
the claimed view; on success commit it (a failure inside the commit is also
caught by the same `except` block), on any exception fall back to
`set_error` on the claimed row number. -/
def process_claimed (gen : DataGen) (ed1 : ExperimentData) (s : ExperimentSample) :
    ExperimentData :=
  match gen s with
  | .error _ => set_error ed1 s.jobnumber
  | .ok r =>
      match set_experiment_sample ed1 r with
      | (.ok _, ed') => ed'
      | (.error _, ed') => set_error ed' s.jobnumber

/-- Fuel-indexed unfolding of the `while True` loop of `_run_sequential`
(src lines 912-935): claim a row, process it, continue; break on
`NoOpenJobsError`.  Each iteration turns one OPEN row into a non-OPEN one
and no operation ever creates an OPEN row, so `countOpen` fuel makes the
unfolding extensionally equal to the unbounded loop. -/
def runSeqAux (gen : DataGen) : Nat → ExperimentData → ExperimentData
  | 0, ed => ed
  | fuel + 1, ed =>
      match access_open_job_data ed with
      | (.error _, ed') => ed'
      | (.ok s, ed1) => runSeqAux gen fuel (process_claimed gen ed1 s)

/-- `ExperimentData._run_sequential` (src lines 897-935). -/
def run_sequential (gen : DataGen) (ed : ExperimentData) : ExperimentData :=
  runSeqAux gen (countOpen ed.jobs) ed

/-- The claim-all-rows-up-front loop of `ExperimentData._run_multiprocessing`
(src lines 953-960): repeatedly claim open rows, accumulating the claimed
single-row views, until `NoOpenJobsError` breaks the loop.  Fuel-indexed as
in `runSeqAux`. -/
def collectOpenAux : Nat → ExperimentData → List ExperimentSample →
    ExperimentData × List ExperimentSample
  | 0, ed, acc => (ed, acc)
  | fuel + 1, ed, acc =>
      match access_open_job_data ed with
      | (.error _, ed') => (ed', acc)
      | (.ok s, ed1) => collectOpenAux fuel ed1 (acc ++ [s])

/-- The worker pool `pool.starmap(f, options)` of `_run_multiprocessing`
(src lines 966-968): evaluate the generator on every claimed view; the first
raised exception is re-raised in the parent when the results are gathered,
so no result list is produced. -/
def poolStarmap (gen : DataGen) : List ExperimentSample → Except EDErr (List ExperimentSample)
  | [] => .ok []
  | s :: rest =>
      match gen s with
      | .error e => .error e
      | .ok r =>
          match poolStarmap gen rest with
          | .error e => .error e
          | .ok rs => .ok (r :: rs)

/-- The commit loop of `_run_multiprocessing` (src lines 970-971): write each
gathered result back with `set_experiment_sample`; an exception raised by a
commit propagates and the remaining commits are skipped. -/
def commitAll : ExperimentData → List ExperimentSample → Except EDErr Unit × ExperimentData
  | ed, [] => (.ok (), ed)
  | ed, r :: rest =>
      match set_experiment_sample ed r with
      | (.ok _, ed') => commitAll ed' rest
      | (.error e, ed') => (.error e, ed')

/-- `ExperimentData._run_multiprocessing` (src lines 937-971): claim all
currently-open rows up front, fan the evaluator out across the pool, then
commit all results.  State-passing form: the first component is the
exception, if any, propagated to the caller of `run`; the second is the
in-memory ledger after the call. -/
def run_multiprocessing (gen : DataGen) (ed : ExperimentData) :
    Except EDErr Unit × ExperimentData :=
  let ro := collectOpenAux (countOpen ed.jobs) ed []
  match poolStarmap gen ro.2 with
  | .error e => (.error e, ro.1)
  | .ok results => commitAll ro.1 results

/-!  Cluster mode (src lines 973-1013 and the `_access_file` wrapper, src
lines 243-259).  Under the locking discipline each claim and each
commit/fail acquires the file lock, reloads the ledger fresh from disk,
performs the operation and writes it back, so every such critical section is
one atomic step on the persisted ledger.  The interleaving of N sequential
drivers is modelled as a labelled transition system over the shared disk
ledger and one control state per driver. -/

/-- Control state of one cluster driver running the `_run_cluster` loop:
about to claim, holding a claimed row view (evaluation in flight), or
finished after observing `NoOpenJobsError`. -/
inductive WState where
  | idle
  | hasJob (s : ExperimentSample)
  | done
deriving DecidableEq, Repr

/-- Global state of the cluster: the persisted ledger (single source of
truth, src line 254 reloads it inside every critical section) and the
control state of each driver. -/
structure ClusterSys where
  disk : ExperimentData
  workers : List WState
deriving DecidableEq, Repr

/-- One atomic step of the cluster system.  `claim` and `noJobs` are
`get_open_job_data` (src lines 809-819) under the lock; `commitOk` is
`write_experiment_sample` (src lines 784-794) under the lock;
`commitKeyErr` covers a commit that raises inside the lock — the store-back
is skipped (src lines 250-257), the exception is caught by the driver (src
lines 1004-1009) and translated into `write_error`; `commitGenErr` is an
evaluator exception translated into `write_error` (src lines 835-844). -/
inductive ClusterStep (gen : DataGen) : ClusterSys → ClusterSys → Prop
  | claim (S : ClusterSys) (w : Nat) (s : ExperimentSample) (ed' : ExperimentData)
      (hw : S.workers[w]? = some .idle)
      (hc : access_open_job_data S.disk = (.ok s, ed')) :
      ClusterStep gen S ⟨ed', S.workers.set w (.hasJob s)⟩
  | noJobs (S : ClusterSys) (w : Nat) (e : EDErr) (ed' : ExperimentData)
      (hw : S.workers[w]? = some .idle)
      (hc : access_open_job_data S.disk = (.error e, ed')) :
      ClusterStep gen S ⟨S.disk, S.workers.set w .done⟩
  | commitOk (S : ClusterSys) (w : Nat) (s r : ExperimentSample) (u : Unit)
      (ed' : ExperimentData)
      (hw : S.workers[w]? = some (.hasJob s))
      (hg : gen s = .ok r)
      (hset : set_experiment_sample S.disk r = (.ok u, ed')) :
      ClusterStep gen S ⟨ed', S.workers.set w .idle⟩
  | commitKeyErr (S : ClusterSys) (w : Nat) (s r : ExperimentSample) (e : EDErr)
      (ed' : ExperimentData)
      (hw : S.workers[w]? = some (.hasJob s))
      (hg : gen s = .ok r)
      (hset : set_experiment_sample S.disk r = (.error e, ed')) :
      ClusterStep gen S ⟨set_error S.disk s.jobnumber, S.workers.set w .idle⟩
  | commitGenErr (S : ClusterSys) (w : Nat) (s : ExperimentSample) (e : EDErr)
      (hw : S.workers[w]? = some (.hasJob s))
      (hg : gen s = .error e) :
      ClusterStep gen S ⟨set_error S.disk s.jobnumber, S.workers.set w .idle⟩

/-- Interleaved executions of the cluster system: reflexive-transitive
closure of the atomic steps. -/
def ClusterReach (gen : DataGen) : ClusterSys → ClusterSys → Prop :=
  Relation.ReflTransGen (ClusterStep gen)

/-!  Persistence: the four-file decomposition (src lines 522-536 and
450-486).  Component-level file writing and reading (`_Data.store`,
`_Data.from_file`, `_JobQueue.store`, `_JobQueue.from_file`, `Domain.store`,
`Domain.from_file`) live in the missing component files. -/

/-- Modelled from the spec: the on-disk four-file decomposition under one
shared base name (`_data`, `_output`, `_jobs`, `_domain`); each slot holds
the decoded content of the corresponding file, or `none` when the file is
absent.  Per the spec, component reload restores exact content (the job
table "must restore exact status per row"), so slots store the component
values themselves. -/
structure FS where
  dataF : Option RecData
  outputF : Option RecData
  jobsF : Option (List Status)
  domainF : Option DomainT
deriving DecidableEq, Repr

/-- File-level failure raised by `_from_file_attempt` (src line 486). -/
inductive FileErr where
  | fileNotFound (msg : String)
deriving DecidableEq, Repr

/-- `ExperimentData.store` (src lines 522-536): write the four sibling
files. -/
def store (ed : ExperimentData) : FS :=
  { dataF := some ed.input_data
    outputF := some ed.output_data
    jobsF := some ed.jobs
    domainF := some ed.domain }

/-- Modelled from the spec: `_Data.from_indices` of `_data.py` (missing from
the source tree) — a store with one all-unset row per index of the given
store and no columns. -/
def from_indices (d : RecData) : RecData :=
  { cols := [], rows := d.rows.map fun _ => [] }

/-- `ExperimentData._from_file_attempt` (src lines 450-486): load the domain
file, then the input data file, then the output file — whose absence is
tolerated by substituting empty rows for the input indices — then the jobs
file.  Any `FileNotFoundError` among the non-tolerated reads is re-raised as
a single file-not-found error naming the `_data` file. -/
def from_file_attempt (filename : String) (fs : FS) : Except FileErr ExperimentData :=
  match fs.domainF with
  | none => .error (.fileNotFound ("Cannot find the file " ++ filename ++ "_data.csv."))
  | some dom =>
      match fs.dataF with
      | none => .error (.fileNotFound ("Cannot find the file " ++ filename ++ "_data.csv."))
      | some din =>
          let dout := match fs.outputF with
            | none => from_indices din
            | some o => o
          match fs.jobsF with
          | none => .error (.fileNotFound ("Cannot find the file " ++ filename ++ "_data.csv."))
          | some js =>
              .ok { input_data := din, output_data := dout, jobs := js
                    domain := dom, filename := filename }

/-- `ExperimentData.__eq__` (src lines 229-233): equality of the input
table, the output table, the status table and the schema; the filename is
not compared. -/
def edEq (a b : ExperimentData) : Prop :=
  a.input_data = b.input_data ∧ a.output_data = b.output_data ∧
    a.jobs = b.jobs ∧ a.domain = b.domain

/-!  Construction (src lines 124-163). -/

/-- Modelled from the spec: `_Data.is_empty` via pandas `DataFrame.empty` —
true when the store has no rows or no columns. -/
def isEmptyRec (d : RecData) : Bool :=
  d.rows.isEmpty || d.cols.isEmpty

/-- Modelled from the spec: `_Data.from_domain` of `_data.py` (missing from
the source tree) — a store with the schema's column names and no rows;
`none` gives an empty store. -/
def from_domain (domain : Option DomainT) : RecData :=
  { cols := (domain.getD { names := [] }).names, rows := [] }

/-- Modelled from the spec: `Domain.from_data` — a schema inferred from the
column names of the input store. -/
def from_data_domain (d : RecData) : DomainT :=
  { names := d.cols }

/-- `ExperimentData._construct_domain` (src lines 188-202) restricted to the
in-memory argument kinds: a given schema is kept; with no schema an empty
input gives an empty schema and a non-empty input infers the schema from the
data. -/
def construct_domain (domain : Option DomainT) (input : RecData) : DomainT :=
  match domain with
  | some d => d
  | none => if isEmptyRec input then { names := [] } else from_data_domain input

/-- Modelled from the spec: `_JobQueue.from_data` of `_jobqueue.py` (missing
from the source tree) — one copy of `value` per row of the given store. -/
def from_data_jobs (d : RecData) (value : Status) : List Status :=
  d.rows.map fun _ => value

/-- `ExperimentData.__init__` (src lines 124-163) restricted to in-memory
argument kinds.  The `jobs` argument holds the decoded content of the jobs
file when a path was supplied; the assignment it guards (src lines 160-161)
is immediately overwritten by the unconditional rebuild from the input data
(src line 163). -/
def initED (domain : Option DomainT) (input_data output_data : Option RecData)
    (jobs : Option (List Status)) (filename : String) : ExperimentData :=
  let inp0 := input_data.getD { cols := [], rows := [] }
  let out0 := output_data.getD { cols := [], rows := [] }
  let p := if isEmptyRec out0 then (from_indices inp0, Status.OPEN)
           else (out0, Status.FINISHED)
  let dom := construct_domain domain inp0
  let inp1 := if isEmptyRec inp0 then from_domain domain else inp0
  let _jobs0 := jobs.getD []
  { input_data := inp1, output_data := p.1
    jobs := from_data_jobs inp1 p.2, domain := dom, filename := filename }

/-!  Iteration controller (src lines 1021-1043 and 1079-1114). -/

/-- `_number_of_updates` (src lines 1079-1093): the Python expression
`iterations // population + (iterations % population > 0)`. -/
def number_of_updates (iterations population : Nat) : Nat :=
  iterations / population + (if iterations % population > 0 then 1 else 0)

/-- `_number_of_overiterations` (src lines 1096-1114). -/
def number_of_overiterations (iterations population : Nat) : Nat :=
  if iterations % population = 0 then 0 else population - iterations % population

/-- The optimizer collaborator of `_iterate`: a population size and an
update step proposing a batch of new rows from the current ledger
(`update_step` together with the `set_data` refresh of src line 1036). -/
structure OptModel where
  population : Nat
  updateStep : ExperimentData → ExperimentData

/-- `ExperimentData.add_experiments` (src lines 623-637): row-wise
concatenation of the two ledgers' input stores, output stores and status
tables, after reindexing the appended ledger.  Modelled from the spec:
column alignment by name inside the missing `_Data.__add__` is not needed by
any claim and the appended rows are concatenated positionally. -/
def add_experiments (ed ns : ExperimentData) : ExperimentData :=
  { input_data := { cols := ed.input_data.cols
                    rows := ed.input_data.rows ++ ns.input_data.rows }
    output_data := { cols := ed.output_data.cols
                     rows := ed.output_data.rows ++ ns.output_data.rows }
    jobs := ed.jobs ++ ns.jobs
    domain := ed.domain
    filename := ed.filename }

/-- `ExperimentData.remove_rows_bottom` (src lines 722-740): no-op for zero,
otherwise drop the last `number_of_rows` rows from all three structures. -/
def remove_rows_bottom (ed : ExperimentData) (number_of_rows : Nat) : ExperimentData :=
  if number_of_rows = 0 then ed
  else
    { input_data := { cols := ed.input_data.cols
                      rows := ed.input_data.rows.take
                        (ed.input_data.rows.length - number_of_rows) }
      output_data := { cols := ed.output_data.cols
                       rows := ed.output_data.rows.take
                         (ed.output_data.rows.length - number_of_rows) }
      jobs := ed.jobs.take (ed.jobs.length - number_of_rows)
      domain := ed.domain
      filename := ed.filename }

/-- The update loop of `ExperimentData._iterate` (src lines 1029-1036): for
each round, ask the optimizer for a batch, append it, evaluate sequentially,
and hand the refreshed ledger back to the optimizer. -/
def iterateRounds (opt : OptModel) (gen : DataGen) : Nat → ExperimentData → ExperimentData
  | 0, ed => ed
  | k + 1, ed =>
      iterateRounds opt gen k (run_sequential gen (add_experiments ed (opt.updateStep ed)))

/-- `ExperimentData._iterate` (src lines 1021-1043): run
`_number_of_updates` rounds, then trim `_number_of_overiterations` rows from
the tail. -/
def iterate_optimize (opt : OptModel) (gen : DataGen) (iterations : Nat)
    (ed : ExperimentData) : ExperimentData :=
  remove_rows_bottom
    (iterateRounds opt gen (number_of_updates iterations opt.population) ed)
    (number_of_overiterations iterations opt.population)

/-!  Object store registry (`_io.py`, src lines 46-189 and 252-295). -/

/-- The runtime type of a value passed to `save_object`: the registered
container/array/table types, or any other type identified by its name.
Exact runtime-type match (`type(object)` looked up in a dict) means a
subclass of a registered type is also an `other`. -/
inductive PyType where
  | ndarray
  | dataFrame
  | series
  | dataArray
  | dataset
  | other (name : String)
deriving DecidableEq, Repr

/-- The four storage strategy classes of `_io.py` (src lines 92-180). -/
inductive StoreKind where
  | pickleStore
  | numpyStore
  | pandasStore
  | xarrayStore
deriving DecidableEq, Repr

/-- The `suffix` class attribute of each strategy (src lines 94, 119, 141,
163). -/
def storeSuffix : StoreKind → String
  | .pickleStore => ".pkl"
  | .numpyStore => ".npy"
  | .pandasStore => ".csv"
  | .xarrayStore => ".nc"

/-- `STORE_TYPE_MAPPING` (src lines 183-189). -/
def STORE_TYPE_MAPPING : List (PyType × StoreKind) :=
  [(.ndarray, .numpyStore), (.dataFrame, .pandasStore), (.series, .pandasStore),
   (.dataArray, .xarrayStore), (.dataset, .xarrayStore)]

/-- Dictionary lookup `STORE_TYPE_MAPPING[object_type]` by exact type. -/
def lookupStoreType (t : PyType) : Option StoreKind :=
  (STORE_TYPE_MAPPING.find? fun p => p.1 = t).map Prod.snd

/-- Outcome of `save_object`: the strategy that stored the value, whether
the not-natively-supported diagnostic was emitted, and the returned
suffix. -/
structure SaveOutcome where
  method : StoreKind
  diagnostic : Bool
  suffix : String
deriving DecidableEq, Repr

/-- `save_object` (src lines 252-295).  With an explicit store method the
function instantiates it and returns `None` without storing (src lines
279-281), hence no outcome; otherwise the strategy is selected by exact
runtime type, falling back to the pickle strategy with a debug diagnostic
for unregistered types, and the strategy's suffix is returned. -/
def save_object (object_type : PyType) (store_method : Option StoreKind) :
    Option SaveOutcome :=
  match store_method with
  | some _ => none
  | none =>
      match lookupStoreType object_type with
      | none => some { method := .pickleStore, diagnostic := true
                       suffix := storeSuffix .pickleStore }
      | some m => some { method := m, diagnostic := false, suffix := storeSuffix m }

/-!  Inductive invariant of the cluster system, and concrete ledgers used to
instantiate the theorems below on closed inputs. -/

/-- Inductive invariant of the cluster transition system: the disk ledger
keeps its M rows; a driver holding a row view points at an IN_PROGRESS row;
no two drivers hold the same row; every IN_PROGRESS row has a holder; and
once some driver has observed `NoOpenJobs`, no OPEN row exists any more. -/
structure ClusterInv (M N : Nat) (S : ClusterSys) : Prop where
  wlen : S.workers.length = N
  dlen : S.disk.jobs.length = M
  holder_ip : ∀ (w : Nat) (s : ExperimentSample),
    S.workers[w]? = some (WState.hasJob s) →
    S.disk.jobs[s.jobnumber]? = some Status.IN_PROGRESS
  uniq : ∀ (w w' : Nat) (s s' : ExperimentSample),
    S.workers[w]? = some (WState.hasJob s) →
    S.workers[w']? = some (WState.hasJob s') → s.jobnumber = s'.jobnumber → w = w'
  ip_held : ∀ i : Nat, S.disk.jobs[i]? = some Status.IN_PROGRESS →
    ∃ (w : Nat) (s : ExperimentSample),
      S.workers[w]? = some (WState.hasJob s) ∧ s.jobnumber = i
  done_no_open : (∃ w : Nat, S.workers[w]? = some WState.done) →
    ∀ i : Nat, S.disk.jobs[i]? ≠ some Status.OPEN

/-- Evaluator that succeeds on every row, returning the view unchanged. -/
def genOk : DataGen := fun s => .ok s

/-- Evaluator that raises on every row. -/
def genFail : DataGen := fun _ => .error (.genError "boom")

/-- Evaluator that succeeds on every row with no output values. -/
def genNoOut : DataGen := fun s =>
  .ok { input_data := s.input_data, output_data := [], jobnumber := s.jobnumber }

/-- A one-row ledger whose single row is OPEN. -/
def edOneOpen : ExperimentData :=
  { input_data := { cols := ["x"], rows := [[.vint 0]] }
    output_data := { cols := ["y"], rows := [[.na]] }
    jobs := [.OPEN]
    domain := { names := ["x"] }
    filename := "experimentdata" }

/-- A one-row ledger whose single row is FINISHED. -/
def edOneFinished : ExperimentData :=
  { edOneOpen with jobs := [.FINISHED] }

/-- A one-row ledger whose single row is stranded IN_PROGRESS. -/
def edStranded : ExperimentData :=
  { edOneOpen with jobs := [.IN_PROGRESS] }

/-- The claimed single-row view of `edOneOpen`. -/
def sampleOne : ExperimentSample :=
  { input_data := [("x", .vint 0)], output_data := [("y", .na)], jobnumber := 0 }

/-- A persisted four-file layout whose `_output` file is absent while the
`_jobs` file records the row as FINISHED. -/
def fsNoOutput : FS :=
  { dataF := some { cols := ["x"], rows := [[.vint 0]] }
    outputF := none
    jobsF := some [.FINISHED]
    domainF := some { names := ["x"] } }

/-- A three-row batch of proposed samples, all OPEN. -/
def batchThree : ExperimentData :=
  { input_data := { cols := ["x"], rows := [[.vint 1], [.vint 2], [.vint 3]] }
    output_data := { cols := [], rows := [[], [], []] }
    jobs := [.OPEN, .OPEN, .OPEN]
    domain := { names := ["x"] }
    filename := "experimentdata" }

/-- An optimizer with population 3 proposing `batchThree` every round. -/
def optThree : OptModel :=
  { population := 3, updateStep := fun _ => batchThree }

/-- An empty ledger with one input column. -/
def edEmptyX : ExperimentData :=
  { input_data := { cols := ["x"], rows := [] }
    output_data := { cols := [], rows := [] }
    jobs := []
    domain := { names := ["x"] }
    filename := "experimentdata" }

/-!  Helper lemmas about the job table primitives. -/

theorem lt_of_getElem?_some {α : Type} {l : List α} {i : Nat} {a : α}
    (h : l[i]? = some a) : i < l.length :=
  (List.getElem?_eq_some.mp h).1

theorem getOpenJobAux_ok_get (l : List Status) :
    ∀ k i : Nat, getOpenJobAux l k = Except.ok i →
      k ≤ i ∧ l[i - k]? = some Status.OPEN := by
  induction l with
  | nil => intro k i h; simp [getOpenJobAux] at h
  | cons s rest ih =>
    intro k i h
    by_cases hs : s = Status.OPEN
    · rw [getOpenJobAux, if_pos hs] at h
      have hk : k = i := by injection h
      subst hk
      refine ⟨Nat.le_refl _, ?_⟩
      rw [Nat.sub_self]
      simpa using hs
    · rw [getOpenJobAux, if_neg hs] at h
      obtain ⟨hk, hget⟩ := ih (k + 1) i h
      refine ⟨by omega, ?_⟩
      have hik : i - k = (i - (k + 1)) + 1 := by omega
      rw [hik]
      simpa using hget

theorem get_open_job_ok (l : List Status) (i : Nat)
    (h : get_open_job l = Except.ok i) : l[i]? = some Status.OPEN := by
  have := (getOpenJobAux_ok_get l 0 i h).2
  simpa using this

theorem getOpenJobAux_err_no_open (l : List Status) :
    ∀ (k : Nat) (e : EDErr), getOpenJobAux l k = Except.error e →
      (∀ j : Nat, l[j]? ≠ some Status.OPEN) ∧ e = EDErr.noOpenJobs := by
  induction l with
  | nil =>
    intro k e h
    refine ⟨fun j => by simp, ?_⟩
    rw [getOpenJobAux] at h
    injection h with h
    exact h.symm
  | cons s rest ih =>
    intro k e h
    by_cases hs : s = Status.OPEN
    · rw [getOpenJobAux, if_pos hs] at h
      exact absurd h (by simp)
    · rw [getOpenJobAux, if_neg hs] at h
      obtain ⟨hno, he⟩ := ih (k + 1) e h
      refine ⟨?_, he⟩
      intro j
      cases j with
      | zero => simpa using hs
      | succ j => simpa using hno j

theorem getOpenJobAux_err_of_no_open (l : List Status) :
    ∀ k : Nat, (∀ j : Nat, l[j]? ≠ some Status.OPEN) →
      getOpenJobAux l k = Except.error EDErr.noOpenJobs := by
  induction l with
  | nil => intro k _; rfl
  | cons s rest ih =>
    intro k h
    have hs : s ≠ Status.OPEN := by
      intro hc
      exact h 0 (by simpa using hc)
    rw [getOpenJobAux, if_neg hs]
    exact ih (k + 1) fun j => by simpa using h (j + 1)

theorem countOpen_eq_zero_no_open :
    ∀ l : List Status, countOpen l = 0 → ∀ i : Nat, l[i]? ≠ some Status.OPEN := by
  intro l
  induction l with
  | nil => intro _ i; simp
  | cons s rest ih =>
    intro h i
    rw [countOpen] at h
    have hs : s ≠ Status.OPEN := by
      intro hc
      rw [if_pos hc] at h
      omega
    rw [if_neg hs] at h
    cases i with
    | zero => simpa using hs
    | succ i => simpa using ih (by omega) i

theorem countOpen_pos_of_open (l : List Status) (i : Nat)
    (h : l[i]? = some Status.OPEN) : 0 < countOpen l := by
  by_contra hc
  exact countOpen_eq_zero_no_open l (by omega) i h

theorem countOpen_set_succ :
    ∀ (l : List Status) (i : Nat) (v : Status), l[i]? = some Status.OPEN →
      v ≠ Status.OPEN → countOpen (l.set i v) + 1 = countOpen l := by
  intro l
  induction l with
  | nil => intro i v h _; simp at h
  | cons s rest ih =>
    intro i v h hv
    cases i with
    | zero =>
      have hs : s = Status.OPEN := by simpa using h
      show countOpen (v :: rest) + 1 = countOpen (s :: rest)
      rw [countOpen, countOpen, if_neg hv, if_pos hs]
      omega
    | succ i =>
      have h' : rest[i]? = some Status.OPEN := by simpa using h
      show countOpen (s :: rest.set i v) + 1 = countOpen (s :: rest)
      rw [countOpen, countOpen]
      have := ih i v h' hv
      omega

theorem countOpen_set_le :
    ∀ (l : List Status) (i : Nat) (v : Status), v ≠ Status.OPEN →
      countOpen (l.set i v) ≤ countOpen l := by
  intro l
  induction l with
  | nil => intro i v _; exact Nat.le_refl _
  | cons s rest ih =>
    intro i v hv
    cases i with
    | zero =>
      show countOpen (v :: rest) ≤ countOpen (s :: rest)
      rw [countOpen, countOpen, if_neg hv]
      split <;> omega
    | succ i =>
      show countOpen (s :: rest.set i v) ≤ countOpen (s :: rest)
      rw [countOpen, countOpen]
      have := ih i v hv
      omega

/-!  Inversion lemmas for the row-granular operations. -/

theorem access_open_job_data_ok (ed : ExperimentData) (s : ExperimentSample)
    (ed1 : ExperimentData) (h : access_open_job_data ed = (.ok s, ed1)) :
    ed.jobs[s.jobnumber]? = some Status.OPEN ∧
      ed1.jobs = ed.jobs.set s.jobnumber Status.IN_PROGRESS ∧
      ed1.input_data = ed.input_data ∧ ed1.output_data = ed.output_data ∧
      s = get_experiment_sample ed1 s.jobnumber := by
  unfold access_open_job_data at h
  cases hg : get_open_job ed.jobs with
  | error e => rw [hg] at h; exact absurd h (by simp)
  | ok i =>
    rw [hg] at h
    injection h with h1 h2
    injection h1 with h1
    have hnum : s.jobnumber = i := by rw [← h1]; rfl
    subst h2
    subst hnum
    exact ⟨get_open_job_ok ed.jobs s.jobnumber hg, rfl, rfl, rfl, h1.symm⟩

theorem access_open_job_data_err (ed : ExperimentData) (e : EDErr)
    (ed1 : ExperimentData) (h : access_open_job_data ed = (.error e, ed1)) :
    ed1 = ed ∧ e = EDErr.noOpenJobs ∧ ∀ j : Nat, ed.jobs[j]? ≠ some Status.OPEN := by
  unfold access_open_job_data at h
  cases hg : get_open_job ed.jobs with
  | error e' =>
    rw [hg] at h
    injection h with h1 h2
    injection h1 with h1
    obtain ⟨hno, he⟩ := getOpenJobAux_err_no_open ed.jobs 0 e' hg
    exact ⟨h2.symm, h1 ▸ he, hno⟩
  | ok i => rw [hg] at h; exact absurd h (by simp)

theorem access_open_job_data_err_of_no_open (ed : ExperimentData)
    (h : ∀ j : Nat, ed.jobs[j]? ≠ some Status.OPEN) :
    access_open_job_data ed = (.error EDErr.noOpenJobs, ed) := by
  unfold access_open_job_data
  rw [show get_open_job ed.jobs = Except.error EDErr.noOpenJobs from
    getOpenJobAux_err_of_no_open ed.jobs 0 h]

theorem colIndex_of_mem :
    ∀ (l : List String) (c : String), c ∈ l → ∃ j : Nat, colIndex l c = some j := by
  intro l
  induction l with
  | nil => intro c hc; simp at hc
  | cons x rest ih =>
    intro c hc
    by_cases hx : x = c
    · exact ⟨0, by rw [colIndex, if_pos hx]⟩
    · have hc' : c ∈ rest := by
        cases hc with
        | head => exact absurd rfl hx
        | tail _ h => exact h
      obtain ⟨j, hj⟩ := ih c hc'
      exact ⟨j + 1, by rw [colIndex, if_neg hx, hj]; rfl⟩

theorem set_data_col_ok (d : RecData) (i : Nat) (v : CellVal) (c : String)
    (d' : RecData) (h : set_data_col d i v c = .ok d') :
    d'.cols = d.cols ∧ d'.rows.length = d.rows.length := by
  unfold set_data_col at h
  cases hc : colIndex d.cols c with
  | none => rw [hc] at h; exact absurd h (by simp)
  | some j =>
    rw [hc] at h
    injection h with h
    subst h
    exact ⟨rfl, List.length_set ..⟩

theorem set_data_col_ok_of_mem (d : RecData) (i : Nat) (v : CellVal) (c : String)
    (hc : c ∈ d.cols) : ∃ d', set_data_col d i v c = .ok d' := by
  obtain ⟨j, hj⟩ := colIndex_of_mem d.cols c hc
  exact ⟨_, by unfold set_data_col; rw [hj]⟩

theorem set_outputs_ok_of_cols :
    ∀ (outs : List (String × CellVal)) (d : RecData) (i : Nat),
      (∀ cv ∈ outs, cv.1 ∈ d.cols) →
      ∃ d', set_outputs d i outs = (.ok (), d') ∧ d'.cols = d.cols ∧
        d'.rows.length = d.rows.length := by
  intro outs
  induction outs with
  | nil => intro d i _; exact ⟨d, rfl, rfl, rfl⟩
  | cons cv rest ih =>
    intro d i hcols
    obtain ⟨c, v⟩ := cv
    obtain ⟨d1, hd1⟩ := set_data_col_ok_of_mem d i v c (hcols (c, v) (by simp))
    obtain ⟨hcols1, hrows1⟩ := set_data_col_ok d i v c d1 hd1
    obtain ⟨d', hd', hcols', hrows'⟩ := ih d1 i (by
      intro cv' hcv'
      rw [hcols1]
      exact hcols cv' (by simp [hcv']))
    refine ⟨d', ?_, by rw [hcols', hcols1], by rw [hrows', hrows1]⟩
    rw [set_outputs, hd1]
    exact hd'

theorem set_experiment_sample_ok_of_cols (ed : ExperimentData) (r : ExperimentSample)
    (h : ∀ cv ∈ r.output_data, cv.1 ∈ ed.output_data.cols) :
    ∃ ed', set_experiment_sample ed r = (.ok (), ed') ∧
      ed'.jobs = ed.jobs.set r.jobnumber Status.FINISHED ∧
      ed'.output_data.cols = ed.output_data.cols ∧
      ed'.input_data = ed.input_data := by
  obtain ⟨d', hd', hcols', _⟩ := set_outputs_ok_of_cols r.output_data ed.output_data r.jobnumber h
  have hgoal : set_experiment_sample ed r =
      (Except.ok (), { ed with output_data := d', jobs := ed.jobs.set r.jobnumber Status.FINISHED }) := by
    unfold set_experiment_sample
    rw [hd']
  exact ⟨_, hgoal, rfl, hcols', rfl⟩

theorem set_experiment_sample_ok_jobs (ed : ExperimentData) (r : ExperimentSample)
    (u : Unit) (ed' : ExperimentData)
    (h : set_experiment_sample ed r = (.ok u, ed')) :
    ed'.jobs = ed.jobs.set r.jobnumber Status.FINISHED ∧
      ed'.input_data = ed.input_data := by
  unfold set_experiment_sample at h
  cases hso : set_outputs ed.output_data r.jobnumber r.output_data with
  | mk exc out' =>
    rw [hso] at h
    cases exc with
    | error e => exact absurd h (by simp)
    | ok u' =>
      injection h with h1 h2
      subst h2
      exact ⟨rfl, rfl⟩

theorem set_experiment_sample_err_jobs (ed : ExperimentData) (r : ExperimentSample)
    (e : EDErr) (ed' : ExperimentData)
    (h : set_experiment_sample ed r = (.error e, ed')) :
    ed'.jobs = ed.jobs ∧ ed'.input_data = ed.input_data := by
  unfold set_experiment_sample at h
  cases hso : set_outputs ed.output_data r.jobnumber r.output_data with
  | mk exc out' =>
    rw [hso] at h
    cases exc with
    | ok u' => exact absurd h (by simp)
    | error e' =>
      injection h with h1 h2
      subst h2
      exact ⟨rfl, rfl⟩

theorem process_claimed_jobs (gen : DataGen)
    (hgen : ∀ s r, gen s = Except.ok r → r.jobnumber = s.jobnumber)
    (ed1 : ExperimentData) (s : ExperimentSample) :
    ∃ t : Status, (t = Status.FINISHED ∨ t = Status.ERROR) ∧
      (process_claimed gen ed1 s).jobs = ed1.jobs.set s.jobnumber t ∧
      ((∃ e, gen s = Except.error e) → t = Status.ERROR) := by
  cases hg : gen s with
  | error e =>
    have hred : process_claimed gen ed1 s = set_error ed1 s.jobnumber := by
      simp only [process_claimed, hg]
    exact ⟨Status.ERROR, Or.inr rfl, by rw [hred]; rfl, fun _ => rfl⟩
  | ok r =>
    have hnum := hgen s r hg
    cases hset : set_experiment_sample ed1 r with
    | mk exc edA =>
      cases exc with
      | ok u =>
        have hred : process_claimed gen ed1 s = edA := by
          simp only [process_claimed, hg, hset]
        obtain ⟨hj, _⟩ := set_experiment_sample_ok_jobs ed1 r u edA hset
        refine ⟨Status.FINISHED, Or.inl rfl, ?_, ?_⟩
        · rw [hred, hj, hnum]
        · rintro ⟨e, he⟩
          exact absurd he (by simp)
      | error e' =>
        have hred : process_claimed gen ed1 s = set_error edA s.jobnumber := by
          simp only [process_claimed, hg, hset]
        obtain ⟨hj, _⟩ := set_experiment_sample_err_jobs ed1 r e' edA hset
        refine ⟨Status.ERROR, Or.inr rfl, ?_, fun _ => rfl⟩
        rw [hred]
        show edA.jobs.set s.jobnumber Status.ERROR = ed1.jobs.set s.jobnumber Status.ERROR
        rw [hj]

theorem runSeqAux_spec (gen : DataGen)
    (hgen : ∀ s r, gen s = Except.ok r → r.jobnumber = s.jobnumber) :
    ∀ (fuel : Nat) (ed : ExperimentData), countOpen ed.jobs ≤ fuel →
      (runSeqAux gen fuel ed).jobs.length = ed.jobs.length ∧
      (∀ (i : Nat) (st : Status), ed.jobs[i]? = some st → st ≠ Status.OPEN →
          (runSeqAux gen fuel ed).jobs[i]? = some st) ∧
      (∀ i : Nat, ed.jobs[i]? = some Status.OPEN →
          (runSeqAux gen fuel ed).jobs[i]? = some Status.FINISHED ∨
          (runSeqAux gen fuel ed).jobs[i]? = some Status.ERROR) ∧
      ((∀ s, ∃ e, gen s = Except.error e) → ∀ i : Nat,
          ed.jobs[i]? = some Status.OPEN →
          (runSeqAux gen fuel ed).jobs[i]? = some Status.ERROR) := by
  intro fuel
  induction fuel with
  | zero =>
    intro ed hfuel
    refine ⟨rfl, fun i st h _ => h, ?_, ?_⟩
    · intro i h
      exact absurd h (countOpen_eq_zero_no_open ed.jobs (by omega) i)
    · intro _ i h
      exact absurd h (countOpen_eq_zero_no_open ed.jobs (by omega) i)
  | succ fuel ih =>
    intro ed hfuel
    cases hacc : access_open_job_data ed with
    | mk exc edN =>
      cases exc with
      | error e =>
        obtain ⟨heq, -, hno⟩ := access_open_job_data_err ed e edN hacc
        have hred : runSeqAux gen (fuel + 1) ed = edN := by
          simp only [runSeqAux, hacc]
        rw [hred, heq]
        refine ⟨rfl, fun i st h _ => h, ?_, ?_⟩
        · intro i h
          exact absurd h (hno i)
        · intro _ i h
          exact absurd h (hno i)
      | ok s =>
        obtain ⟨hopen, hjobs1, -, -, -⟩ := access_open_job_data_ok ed s edN hacc
        obtain ⟨t, ht, hpj, herr⟩ := process_claimed_jobs gen hgen edN s
        have hi0lt : s.jobnumber < ed.jobs.length := lt_of_getElem?_some hopen
        have ht_ne : t ≠ Status.OPEN := by
          rcases ht with rfl | rfl <;> intro hc <;> exact absurd hc (by simp)
        have hjobs2 : (process_claimed gen edN s).jobs = ed.jobs.set s.jobnumber t := by
          rw [hpj, hjobs1, List.set_set]
        have hcount : countOpen (process_claimed gen edN s).jobs ≤ fuel := by
          rw [hjobs2]
          have := countOpen_set_succ ed.jobs s.jobnumber t hopen ht_ne
          omega
        obtain ⟨ihlen, ihpres, ihopen, ihfail⟩ := ih (process_claimed gen edN s) hcount
        have hred : runSeqAux gen (fuel + 1) ed =
            runSeqAux gen fuel (process_claimed gen edN s) := by
          simp only [runSeqAux, hacc]
        rw [hred]
        refine ⟨by rw [ihlen, hjobs2, List.length_set], ?_, ?_, ?_⟩
        · intro i st hst hne
          have hne0 : s.jobnumber ≠ i := by
            intro he
            rw [← he, hopen] at hst
            injection hst with hst
            exact hne hst.symm
          have h2 : (process_claimed gen edN s).jobs[i]? = some st := by
            rw [hjobs2, List.getElem?_set_ne hne0]
            exact hst
          exact ihpres i st h2 hne
        · intro i hio
          by_cases hii : i = s.jobnumber
          · subst hii
            have h2 : (process_claimed gen edN s).jobs[s.jobnumber]? = some t := by
              rw [hjobs2]
              exact List.getElem?_set_eq_of_lt t hi0lt
            have hfin := ihpres s.jobnumber t h2 ht_ne
            rcases ht with rfl | rfl
            · exact Or.inl hfin
            · exact Or.inr hfin
          · have hne2 : s.jobnumber ≠ i := fun hc => hii hc.symm
            have h2 : (process_claimed gen edN s).jobs[i]? = some Status.OPEN := by
              rw [hjobs2, List.getElem?_set_ne hne2]
              exact hio
            exact ihopen i h2
        · intro hfail i hio
          by_cases hii : i = s.jobnumber
          · subst hii
            have hterr : t = Status.ERROR := herr (hfail s)
            subst hterr
            have h2 : (process_claimed gen edN s).jobs[s.jobnumber]? = some Status.ERROR := by
              rw [hjobs2]
              exact List.getElem?_set_eq_of_lt Status.ERROR hi0lt
            exact ihpres s.jobnumber Status.ERROR h2 (by intro hc; exact absurd hc (by simp))
          · have hne2 : s.jobnumber ≠ i := fun hc => hii hc.symm
            have h2 : (process_claimed gen edN s).jobs[i]? = some Status.OPEN := by
              rw [hjobs2, List.getElem?_set_ne hne2]
              exact hio
            exact ihfail hfail i h2

/-- Claim C1 (counterexample): the claim quantifies over every initial
ledger state and asserts that after a sequential sweep no row is left
IN_PROGRESS; but a row already IN_PROGRESS before the sweep is never
claimed (only OPEN rows are) and remains IN_PROGRESS after the sweep, here
with a benign evaluator that succeeds on every row. -/
theorem run_sequential_stranded_in_progress :
    (run_sequential genOk edStranded).jobs = [Status.IN_PROGRESS] := by
  rfl

/-- Claim C1 (amended): for every data generator respecting the evaluator
contract and every initial ledger state, the sequential sweep returns
normally (it is a total function: every evaluator exception is caught), the
number of rows is unchanged, every row that was OPEN at the start ends
FINISHED or ERROR (hence no such row is left IN_PROGRESS), every row that
was not OPEN keeps its status (so rows already IN_PROGRESS stay
IN_PROGRESS), and when the evaluator raises on every row each initially
OPEN row is marked ERROR via `set_error`. -/
theorem run_sequential_sweep (gen : DataGen)
    (hgen : ∀ s r, gen s = Except.ok r → r.jobnumber = s.jobnumber)
    (ed : ExperimentData) :
    (run_sequential gen ed).jobs.length = ed.jobs.length ∧
    (∀ i : Nat, ed.jobs[i]? = some Status.OPEN →
        (run_sequential gen ed).jobs[i]? = some Status.FINISHED ∨
        (run_sequential gen ed).jobs[i]? = some Status.ERROR) ∧
    (∀ (i : Nat) (st : Status), ed.jobs[i]? = some st → st ≠ Status.OPEN →
        (run_sequential gen ed).jobs[i]? = some st) ∧
    ((∀ s, ∃ e, gen s = Except.error e) → ∀ i : Nat,
        ed.jobs[i]? = some Status.OPEN →
        (run_sequential gen ed).jobs[i]? = some Status.ERROR) := by
  obtain ⟨h1, h2, h3, h4⟩ :=
    runSeqAux_spec gen hgen (countOpen ed.jobs) ed (Nat.le_refl _)
  exact ⟨h1, h3, h2, h4⟩

/-- Claim C1 (witness): the amended sweep theorem applied to the one-row
open ledger and the evaluator that raises on every row. -/
theorem run_sequential_sweep_witness :
    (run_sequential genFail edOneOpen).jobs.length = edOneOpen.jobs.length ∧
    ((run_sequential genFail edOneOpen).jobs[0]? = some Status.FINISHED ∨
      (run_sequential genFail edOneOpen).jobs[0]? = some Status.ERROR) := by
  have h := run_sequential_sweep genFail
    (fun s r hc => by simp [genFail] at hc) edOneOpen
  exact ⟨h.1, h.2.1 0 (by decide)⟩

/-- Claim C3: storing a ledger and loading it back yields an equal ledger in
the sense of `ExperimentData.__eq__` — input table, output table, status
table and schema are all preserved (component-level file persistence is
modelled as exact per the spec). -/
theorem store_from_file_roundtrip (ed : ExperimentData) (f : String) :
    ∃ ed', from_file_attempt f (store ed) = Except.ok ed' ∧ edEq ed' ed :=
  ⟨_, rfl, rfl, rfl, rfl, rfl⟩

/-- Claim C4: on a ledger with no OPEN row, claiming the next open job
raises `NoOpenJobs` and returns the ledger completely unchanged — input
store, output store and job statuses included. -/
theorem access_open_job_data_no_open (ed : ExperimentData)
    (h : ∀ st ∈ ed.jobs, st ≠ Status.OPEN) :
    access_open_job_data ed = (Except.error EDErr.noOpenJobs, ed) := by
  refine access_open_job_data_err_of_no_open ed ?_
  intro j hc
  exact h Status.OPEN (List.getElem?_mem hc) rfl

/-- Claim C4 (witness): claiming on a one-row ledger whose row is FINISHED
raises `NoOpenJobs` and leaves the ledger untouched. -/
theorem access_open_job_data_no_open_witness :
    access_open_job_data edOneFinished = (Except.error EDErr.noOpenJobs, edOneFinished) :=
  access_open_job_data_no_open edOneFinished (by decide)

/-- Claim C6: `set_error` marks the job status at the index ERROR
(whatever the previous status was) and overwrites the whole output row with
the sentinel string value, for any output-column configuration; other rows
are untouched.  The operation is a total function — it never raises. -/
theorem set_error_marks_error (ed : ExperimentData) (i : Nat)
    (h1 : i < ed.jobs.length) (h2 : i < ed.output_data.rows.length) :
    (set_error ed i).jobs[i]? = some Status.ERROR ∧
    (set_error ed i).output_data.rows[i]? =
      some (ed.output_data.cols.map fun _ => CellVal.vstr "ERROR") ∧
    (∀ j : Nat, i ≠ j → (set_error ed i).jobs[j]? = ed.jobs[j]?) :=
  ⟨List.getElem?_set_eq_of_lt _ h1, List.getElem?_set_eq_of_lt _ h2,
    fun _ hj => List.getElem?_set_ne hj⟩

/-- Claim C6 (witness): `set_error` on the one-row open ledger. -/
theorem set_error_marks_error_witness :
    0 < edOneOpen.jobs.length ∧ 0 < edOneOpen.output_data.rows.length ∧
    ((set_error edOneOpen 0).jobs[0]? = some Status.ERROR ∧
      (set_error edOneOpen 0).output_data.rows[0]? =
        some (edOneOpen.output_data.cols.map fun _ => CellVal.vstr "ERROR") ∧
      (∀ j : Nat, 0 ≠ j → (set_error edOneOpen 0).jobs[j]? = edOneOpen.jobs[j]?)) :=
  ⟨by decide, by decide, set_error_marks_error edOneOpen 0 (by decide) (by decide)⟩

/-- Claim C7 (counterexample): with the `_output` file absent, the loaded
row statuses are read from the `_jobs` file rather than being inferred as
all-open — here the jobs file records FINISHED and the load succeeds with
the row FINISHED, not OPEN. -/
theorem from_file_missing_output_counterexample :
    from_file_attempt "experimentdata" fsNoOutput =
      Except.ok { input_data := { cols := ["x"], rows := [[CellVal.vint 0]] },
                  output_data := { cols := [], rows := [[]] },
                  jobs := [Status.FINISHED],
                  domain := { names := ["x"] },
                  filename := "experimentdata" } := by
  rfl

/-- Claim C7 (amended): absence of the `_output` file is tolerated — the
load succeeds, with the output table reconstructed as empty (all-unset) rows
for the input indices and the row statuses taken from the `_jobs` file
(not reset to OPEN) — while absence of the `_data` file makes the load fail
with a file-not-found error. -/
theorem from_file_missing_files (f : String) (fs : FS) (dom : DomainT)
    (din : RecData) (js : List Status)
    (h1 : fs.domainF = some dom) (h2 : fs.dataF = some din)
    (h3 : fs.outputF = none) (h4 : fs.jobsF = some js) :
    from_file_attempt f fs =
      Except.ok { input_data := din, output_data := from_indices din,
                  jobs := js, domain := dom, filename := f } ∧
    (∀ fs' : FS, fs'.dataF = none →
      from_file_attempt f fs' =
        Except.error (FileErr.fileNotFound
          ("Cannot find the file " ++ f ++ "_data.csv."))) := by
  constructor
  · unfold from_file_attempt
    rw [h1, h2, h3, h4]
  · intro fs' hd
    unfold from_file_attempt
    cases hdom : fs'.domainF with
    | none => rfl
    | some dom' => rw [hd]

/-- Claim C7 (witness): the amended load theorem applied to the concrete
four-file layout with `_output` absent. -/
theorem from_file_missing_files_witness :
    fsNoOutput.domainF = some { names := ["x"] } ∧
    fsNoOutput.dataF = some { cols := ["x"], rows := [[CellVal.vint 0]] } ∧
    fsNoOutput.outputF = none ∧ fsNoOutput.jobsF = some [Status.FINISHED] ∧
    (from_file_attempt "experimentdata" fsNoOutput =
        Except.ok { input_data := { cols := ["x"], rows := [[CellVal.vint 0]] },
                    output_data := from_indices { cols := ["x"], rows := [[CellVal.vint 0]] },
                    jobs := [Status.FINISHED],
                    domain := { names := ["x"] },
                    filename := "experimentdata" } ∧
      (∀ fs' : FS, fs'.dataF = none →
        from_file_attempt "experimentdata" fs' =
          Except.error (FileErr.fileNotFound
            ("Cannot find the file " ++ "experimentdata" ++ "_data.csv.")))) :=
  ⟨rfl, rfl, rfl, rfl,
    from_file_missing_files "experimentdata" fsNoOutput _ _ _ rfl rfl rfl rfl⟩

/-- Claim C8: without an explicit store method, `save_object` selects the
strategy by exact runtime-type match against `STORE_TYPE_MAPPING` — numpy
arrays to the numpy strategy, pandas DataFrame and Series to the pandas
strategy, xarray DataArray and Dataset to the xarray strategy — and every
unregistered type falls back to the generic pickle strategy with a
diagnostic emitted and no failure (the function is total and always returns
the chosen strategy's suffix). -/
theorem save_object_dispatch :
    save_object PyType.ndarray none =
      some { method := StoreKind.numpyStore, diagnostic := false, suffix := ".npy" } ∧
    save_object PyType.dataFrame none =
      some { method := StoreKind.pandasStore, diagnostic := false, suffix := ".csv" } ∧
    save_object PyType.series none =
      some { method := StoreKind.pandasStore, diagnostic := false, suffix := ".csv" } ∧
    save_object PyType.dataArray none =
      some { method := StoreKind.xarrayStore, diagnostic := false, suffix := ".nc" } ∧
    save_object PyType.dataset none =
      some { method := StoreKind.xarrayStore, diagnostic := false, suffix := ".nc" } ∧
    (∀ nm : String, save_object (PyType.other nm) none =
      some { method := StoreKind.pickleStore, diagnostic := true, suffix := ".pkl" }) :=
  ⟨rfl, rfl, rfl, rfl, rfl, fun _ => rfl⟩

/-- Claim C10: the `jobs` argument of the constructor has no effect — the
status table is unconditionally rebuilt from the input data (the guarded
assignment of src lines 160-161 is overwritten at src line 163) — with one
OPEN status per input row when no output data is supplied and one FINISHED
status per input row when non-empty output data is supplied. -/
theorem init_jobs_argument_ignored (domain : Option DomainT)
    (input output : Option RecData) (j1 j2 : Option (List Status)) (f : String) :
    initED domain input output j1 f = initED domain input output j2 f ∧
    (initED domain input none j1 f).jobs =
      from_data_jobs (initED domain input none j1 f).input_data Status.OPEN ∧
    (∀ o : RecData, output = some o → isEmptyRec o = false →
      (initED domain input output j1 f).jobs =
        from_data_jobs (initED domain input output j1 f).input_data Status.FINISHED) := by
  refine ⟨rfl, rfl, ?_⟩
  intro o ho hne
  subst ho
  simp only [initED, Option.getD_some, hne]
  rfl

/-- Claim C10 (witness): two constructions differing only in the `jobs`
argument coincide, and supplied non-empty output data marks every row
FINISHED. -/
theorem init_jobs_argument_ignored_witness :
    initED (some { names := ["x"] }) (some { cols := ["x"], rows := [[CellVal.vint 0]] })
        (some { cols := ["y"], rows := [[CellVal.vint 1]] })
        (some [Status.ERROR]) "experimentdata" =
      initED (some { names := ["x"] }) (some { cols := ["x"], rows := [[CellVal.vint 0]] })
        (some { cols := ["y"], rows := [[CellVal.vint 1]] }) none "experimentdata" ∧
    (initED (some { names := ["x"] }) (some { cols := ["x"], rows := [[CellVal.vint 0]] })
        (some { cols := ["y"], rows := [[CellVal.vint 1]] })
        (some [Status.ERROR]) "experimentdata").jobs =
      from_data_jobs (initED (some { names := ["x"] })
        (some { cols := ["x"], rows := [[CellVal.vint 0]] })
        (some { cols := ["y"], rows := [[CellVal.vint 1]] })
        (some [Status.ERROR]) "experimentdata").input_data Status.FINISHED := by
  have h := init_jobs_argument_ignored (some { names := ["x"] })
    (some { cols := ["x"], rows := [[CellVal.vint 0]] })
    (some { cols := ["y"], rows := [[CellVal.vint 1]] })
    (some [Status.ERROR]) none "experimentdata"
  exact ⟨h.1, h.2.2 _ rfl (by decide)⟩

/-!  The sequential driver never touches the input store, so the iteration
controller's length bookkeeping only depends on the appended batches. -/

theorem process_claimed_input (gen : DataGen) (ed1 : ExperimentData)
    (s : ExperimentSample) :
    (process_claimed gen ed1 s).input_data = ed1.input_data := by
  cases hg : gen s with
  | error e =>
    simp only [process_claimed, hg]
    rfl
  | ok r =>
    cases hset : set_experiment_sample ed1 r with
    | mk exc edA =>
      cases exc with
      | ok u =>
        have h := (set_experiment_sample_ok_jobs ed1 r u edA hset).2
        simp only [process_claimed, hg, hset]
        exact h
      | error e' =>
        have h := (set_experiment_sample_err_jobs ed1 r e' edA hset).2
        simp only [process_claimed, hg, hset]
        exact h

theorem runSeqAux_input (gen : DataGen) :
    ∀ (fuel : Nat) (ed : ExperimentData),
      (runSeqAux gen fuel ed).input_data = ed.input_data := by
  intro fuel
  induction fuel with
  | zero => intro ed; rfl
  | succ fuel ih =>
    intro ed
    cases hacc : access_open_job_data ed with
    | mk exc edN =>
      cases exc with
      | error e =>
        obtain ⟨heq, -, -⟩ := access_open_job_data_err ed e edN hacc
        have hred : runSeqAux gen (fuel + 1) ed = edN := by
          simp only [runSeqAux, hacc]
        rw [hred, heq]
      | ok s =>
        obtain ⟨-, -, hin, -, -⟩ := access_open_job_data_ok ed s edN hacc
        have hred : runSeqAux gen (fuel + 1) ed =
            runSeqAux gen fuel (process_claimed gen edN s) := by
          simp only [runSeqAux, hacc]
        rw [hred, ih, process_claimed_input, hin]

theorem run_sequential_input (gen : DataGen) (ed : ExperimentData) :
    (run_sequential gen ed).input_data = ed.input_data :=
  runSeqAux_input gen (countOpen ed.jobs) ed

theorem iterateRounds_len (opt : OptModel) (gen : DataGen) (P : Nat)
    (hstep : ∀ ed' : ExperimentData, (opt.updateStep ed').input_data.rows.length = P) :
    ∀ (k : Nat) (ed : ExperimentData),
      (iterateRounds opt gen k ed).input_data.rows.length =
        ed.input_data.rows.length + k * P := by
  intro k
  induction k with
  | zero => intro ed; simp [iterateRounds]
  | succ k ih =>
    intro ed
    have hred : iterateRounds opt gen (k + 1) ed =
        iterateRounds opt gen k
          (run_sequential gen (add_experiments ed (opt.updateStep ed))) := rfl
    rw [hred, ih, run_sequential_input]
    have hadd : (add_experiments ed (opt.updateStep ed)).input_data.rows.length =
        ed.input_data.rows.length + P := by
      show (ed.input_data.rows ++ (opt.updateStep ed).input_data.rows).length = _
      rw [List.length_append, hstep]
    rw [hadd, Nat.succ_mul]
    omega

theorem number_of_updates_eq_ceil (N P : Nat) (hP : 0 < P) :
    number_of_updates N P = (N + P - 1) / P := by
  have hdm := Nat.div_add_mod N P
  have hlt : N % P < P := Nat.mod_lt N hP
  by_cases hr : N % P = 0
  · have h1 : N + P - 1 = (P - 1) + P * (N / P) := by omega
    have h3 : (P - 1 + P * (N / P)) / P = (P - 1) / P + N / P :=
      Nat.add_mul_div_left _ _ hP
    have h4 : (P - 1) / P = 0 := Nat.div_eq_of_lt (by omega)
    rw [number_of_updates, if_neg (by omega), h1, h3, h4]
    omega
  · have h2 : P * (N / P + 1) = P * (N / P) + P := by ring
    have h1 : N + P - 1 = (N % P - 1) + P * (N / P + 1) := by omega
    have h3 : (N % P - 1 + P * (N / P + 1)) / P = (N % P - 1) / P + (N / P + 1) :=
      Nat.add_mul_div_left _ _ hP
    have h4 : (N % P - 1) / P = 0 := Nat.div_eq_of_lt (by omega)
    rw [number_of_updates, if_pos (by omega), h1, h3, h4]
    omega

theorem updates_mul_pop (N P : Nat) (hP : 0 < P) :
    number_of_updates N P * P = N + number_of_overiterations N P := by
  have hdm := Nat.div_add_mod N P
  have hlt : N % P < P := Nat.mod_lt N hP
  by_cases hr : N % P = 0
  · rw [number_of_updates, number_of_overiterations, if_neg (by omega), if_pos hr]
    have h2 : (N / P + 0) * P = P * (N / P) := by ring
    omega
  · rw [number_of_updates, number_of_overiterations, if_pos (by omega), if_neg hr]
    have h2 : (N / P + 1) * P = P * (N / P) + P := by ring
    omega

/-- Claim C2: for positive target N and population P, `_number_of_updates`
equals the ceiling of N/P (written `(N + P - 1) / P` over the naturals),
`_number_of_overiterations` equals `P - N % P` when `N % P` is nonzero and 0
otherwise, and a full `_iterate` run with an optimizer whose update step
proposes exactly P rows per round grows the ledger by exactly N rows
relative to its pre-run length. -/
theorem iterate_reconciliation (N P : Nat) (hN : 0 < N) (hP : 0 < P)
    (opt : OptModel) (gen : DataGen) (ed : ExperimentData)
    (hpop : opt.population = P)
    (hstep : ∀ ed' : ExperimentData,
      (opt.updateStep ed').input_data.rows.length = P) :
    number_of_updates N P = (N + P - 1) / P ∧
    number_of_overiterations N P = (if N % P = 0 then 0 else P - N % P) ∧
    (iterate_optimize opt gen N ed).input_data.rows.length =
      ed.input_data.rows.length + N := by
  refine ⟨number_of_updates_eq_ceil N P hP, rfl, ?_⟩
  have hlen := iterateRounds_len opt gen P hstep (number_of_updates N P) ed
  have hUP := updates_mul_pop N P hP
  unfold iterate_optimize
  rw [hpop]
  by_cases hk : number_of_overiterations N P = 0
  · rw [remove_rows_bottom, if_pos hk, hlen]
    omega
  · rw [remove_rows_bottom, if_neg hk]
    simp only [List.length_take]
    rw [hlen]
    omega

/-- Claim C2 (witness): N = 10 and P = 3 — 4 update rounds proposing 3 rows
each, then a trim of 2, for a net growth of exactly 10 rows on the empty
ledger. -/
theorem iterate_reconciliation_witness :
    (0 : Nat) < 10 ∧ (0 : Nat) < 3 ∧
    (number_of_updates 10 3 = (10 + 3 - 1) / 3 ∧
      number_of_overiterations 10 3 = (if 10 % 3 = 0 then 0 else 3 - 10 % 3) ∧
      (iterate_optimize optThree genOk 10 edEmptyX).input_data.rows.length =
        edEmptyX.input_data.rows.length + 10) :=
  ⟨by decide, by decide,
    iterate_reconciliation 10 3 (by decide) (by decide) optThree genOk edEmptyX
      rfl (fun _ => rfl)⟩

/-!  The parallel driver: claim-all phase, pool phase, commit phase. -/

theorem countOpen_zero_of_no_open :
    ∀ l : List Status, (∀ i : Nat, l[i]? ≠ some Status.OPEN) → countOpen l = 0 := by
  intro l
  induction l with
  | nil => intro _; rfl
  | cons s rest ih =>
    intro h
    have hs : s ≠ Status.OPEN := by
      intro hc
      exact h 0 (by simpa using hc)
    rw [countOpen, if_neg hs, ih fun i => by simpa using h (i + 1)]

theorem collectOpenAux_spec :
    ∀ (fuel : Nat) (ed : ExperimentData) (acc : List ExperimentSample),
      countOpen ed.jobs = fuel →
      (collectOpenAux fuel ed acc).1.input_data = ed.input_data ∧
      (collectOpenAux fuel ed acc).1.output_data = ed.output_data ∧
      (collectOpenAux fuel ed acc).1.jobs.length = ed.jobs.length ∧
      (∀ (i : Nat) (st : Status), ed.jobs[i]? = some st → st ≠ Status.OPEN →
          (collectOpenAux fuel ed acc).1.jobs[i]? = some st) ∧
      (∀ i : Nat, ed.jobs[i]? = some Status.OPEN →
          (collectOpenAux fuel ed acc).1.jobs[i]? = some Status.IN_PROGRESS) ∧
      ∃ samples : List ExperimentSample,
        (collectOpenAux fuel ed acc).2 = acc ++ samples ∧
        (∀ s ∈ samples, ed.jobs[s.jobnumber]? = some Status.OPEN) ∧
        (∀ i : Nat, ed.jobs[i]? = some Status.OPEN → ∃ s ∈ samples, s.jobnumber = i) := by
  intro fuel
  induction fuel with
  | zero =>
    intro ed acc hf
    refine ⟨rfl, rfl, rfl, fun i st h _ => h, ?_, [], by simp [collectOpenAux], by simp, ?_⟩
    · intro i h
      exact absurd h (countOpen_eq_zero_no_open ed.jobs hf i)
    · intro i h
      exact absurd h (countOpen_eq_zero_no_open ed.jobs hf i)
  | succ fuel ih =>
    intro ed acc hf
    cases hacc : access_open_job_data ed with
    | mk exc edN =>
      cases exc with
      | error e =>
        obtain ⟨-, -, hno⟩ := access_open_job_data_err ed e edN hacc
        have h0 := countOpen_zero_of_no_open ed.jobs hno
        exfalso
        omega
      | ok s =>
        obtain ⟨hopen, hjobs1, hin, hout, -⟩ := access_open_job_data_ok ed s edN hacc
        have hi0lt : s.jobnumber < ed.jobs.length := lt_of_getElem?_some hopen
        have hcount : countOpen edN.jobs = fuel := by
          have := countOpen_set_succ ed.jobs s.jobnumber Status.IN_PROGRESS hopen
            (by intro hc; exact absurd hc (by simp))
          rw [hjobs1]
          omega
        obtain ⟨ihin, ihout, ihlen, ihpres, ihopen, samples', hsamp, hsampOpen, hsampCov⟩ :=
          ih edN (acc ++ [s]) hcount
        have hred : collectOpenAux (fuel + 1) ed acc = collectOpenAux fuel edN (acc ++ [s]) := by
          simp only [collectOpenAux, hacc]
        rw [hred]
        refine ⟨by rw [ihin, hin], by rw [ihout, hout],
          by rw [ihlen, hjobs1, List.length_set], ?_, ?_, ?_⟩
        · intro i st hst hne
          have hne0 : s.jobnumber ≠ i := by
            intro he
            rw [← he, hopen] at hst
            injection hst with hst
            exact hne hst.symm
          refine ihpres i st ?_ hne
          rw [hjobs1, List.getElem?_set_ne hne0]
          exact hst
        · intro i hio
          by_cases hii : i = s.jobnumber
          · have h2 : edN.jobs[i]? = some Status.IN_PROGRESS := by
              rw [hjobs1, hii]
              exact List.getElem?_set_eq_of_lt _ hi0lt
            exact ihpres i Status.IN_PROGRESS h2 (by intro hc; exact absurd hc (by simp))
          · have hne2 : s.jobnumber ≠ i := fun hc => hii hc.symm
            have h2 : edN.jobs[i]? = some Status.OPEN := by
              rw [hjobs1, List.getElem?_set_ne hne2]
              exact hio
            exact ihopen i h2
        · refine ⟨s :: samples', ?_, ?_, ?_⟩
          · rw [hsamp]
            simp
          · intro s' hs'
            cases hs' with
            | head => exact hopen
            | tail _ htl =>
              have h2 := hsampOpen s' htl
              by_cases hii : s'.jobnumber = s.jobnumber
              · rw [hjobs1, hii, List.getElem?_set_eq_of_lt _ hi0lt] at h2
                exact absurd h2 (by simp)
              · rw [hjobs1, List.getElem?_set_ne (fun hc => hii hc.symm)] at h2
                exact h2
          · intro i hio
            by_cases hii : i = s.jobnumber
            · exact ⟨s, by simp, hii.symm⟩
            · have hne2 : s.jobnumber ≠ i := fun hc => hii hc.symm
              have h2 : edN.jobs[i]? = some Status.OPEN := by
                rw [hjobs1, List.getElem?_set_ne hne2]
                exact hio
              obtain ⟨s', hs', he⟩ := hsampCov i h2
              exact ⟨s', by simp [hs'], he⟩

theorem poolStarmap_ok_mem (gen : DataGen) :
    ∀ opts results : List ExperimentSample,
      poolStarmap gen opts = Except.ok results →
      (∀ s ∈ opts, ∃ r ∈ results, gen s = Except.ok r) ∧
      (∀ r ∈ results, ∃ s ∈ opts, gen s = Except.ok r) := by
  intro opts
  induction opts with
  | nil =>
    intro results h
    injection h with h
    subst h
    exact ⟨by simp, by simp⟩
  | cons s rest ih =>
    intro results h
    cases hg : gen s with
    | error e =>
      simp only [poolStarmap, hg] at h
      exact absurd h (by simp)
    | ok r =>
      simp only [poolStarmap, hg] at h
      cases hrest : poolStarmap gen rest with
      | error e =>
        simp only [hrest] at h
        exact absurd h (by simp)
      | ok rs =>
        simp only [hrest] at h
        injection h with h
        subst h
        obtain ⟨ih1, ih2⟩ := ih rs hrest
        constructor
        · intro s' hs'
          cases hs' with
          | head => exact ⟨r, by simp, hg⟩
          | tail _ htl =>
            obtain ⟨r', hr', hg'⟩ := ih1 s' htl
            exact ⟨r', by simp [hr'], hg'⟩
        · intro r' hr'
          cases hr' with
          | head => exact ⟨s, by simp, hg⟩
          | tail _ htl =>
            obtain ⟨s', hs', hg'⟩ := ih2 r' htl
            exact ⟨s', by simp [hs'], hg'⟩

theorem poolStarmap_ok_of_all (gen : DataGen)
    (hsucc : ∀ s, ∃ r, gen s = Except.ok r) :
    ∀ opts : List ExperimentSample, ∃ results, poolStarmap gen opts = Except.ok results := by
  intro opts
  induction opts with
  | nil => exact ⟨[], rfl⟩
  | cons s rest ih =>
    obtain ⟨r, hr⟩ := hsucc s
    obtain ⟨rs, hrs⟩ := ih
    exact ⟨r :: rs, by simp only [poolStarmap, hr, hrs]⟩

theorem poolStarmap_fail (gen : DataGen)
    (hfail : ∀ s, ∃ e, gen s = Except.error e) :
    ∀ opts : List ExperimentSample, opts ≠ [] →
      ∃ e, poolStarmap gen opts = Except.error e := by
  intro opts hne
  cases opts with
  | nil => exact absurd rfl hne
  | cons s rest =>
    obtain ⟨e, he⟩ := hfail s
    exact ⟨e, by simp only [poolStarmap, he]⟩

theorem commitAll_spec :
    ∀ (results : List ExperimentSample) (ed : ExperimentData),
      (∀ r ∈ results, ∀ cv ∈ r.output_data, cv.1 ∈ ed.output_data.cols) →
      ∃ edC : ExperimentData, commitAll ed results = (Except.ok (), edC) ∧
        edC.output_data.cols = ed.output_data.cols ∧
        edC.jobs.length = ed.jobs.length ∧
        (∀ i : Nat, i < ed.jobs.length → (∃ r ∈ results, r.jobnumber = i) →
            edC.jobs[i]? = some Status.FINISHED) ∧
        (∀ i : Nat, (∀ r ∈ results, r.jobnumber ≠ i) → edC.jobs[i]? = ed.jobs[i]?) := by
  intro results
  induction results with
  | nil =>
    intro ed _
    refine ⟨ed, rfl, rfl, rfl, ?_, fun i _ => rfl⟩
    rintro i - ⟨r, hr, -⟩
    simp at hr
  | cons r rest ih =>
    intro ed hcols
    obtain ⟨ed1, hset, hjobs1, hcols1, hin1⟩ :=
      set_experiment_sample_ok_of_cols ed r (hcols r (by simp))
    obtain ⟨edC, hcommit, hcolsC, hlenC, hfinC, hpresC⟩ := ih ed1 (by
      intro r' hr' cv hcv
      rw [hcols1]
      exact hcols r' (by simp [hr']) cv hcv)
    have hred : commitAll ed (r :: rest) = commitAll ed1 rest := by
      simp only [commitAll, hset]
    refine ⟨edC, by rw [hred]; exact hcommit, by rw [hcolsC, hcols1],
      by rw [hlenC, hjobs1, List.length_set], ?_, ?_⟩
    · rintro i hlt ⟨r', hr', hnum⟩
      by_cases hrest : ∃ r'' ∈ rest, r''.jobnumber = i
      · exact hfinC i (by rw [hjobs1, List.length_set]; exact hlt) hrest
      · push_neg at hrest
        have hr0 : r.jobnumber = i := by
          cases hr' with
          | head => exact hnum
          | tail _ htl => exact absurd hnum (hrest r' htl)
        have hpres2 := hpresC i hrest
        rw [hpres2, hjobs1, hr0]
        exact List.getElem?_set_eq_of_lt _ hlt
    · intro i hni
      have h1 := hpresC i (fun r'' h'' => hni r'' (by simp [h'']))
      rw [h1, hjobs1, List.getElem?_set_ne (fun hc => hni r (by simp) hc)]

/-- Claim C5 (counterexample): in parallel mode an evaluator failure on a
claimed row is NOT surfaced per row — `pool.starmap` re-raises the first
exception, no result is committed, the exception propagates out of `run`,
and the claimed row is left IN_PROGRESS, neither FINISHED nor ERROR. -/
theorem run_multiprocessing_abort_counterexample :
    (run_multiprocessing genFail edOneOpen).1 = Except.error (EDErr.genError "boom") ∧
    (run_multiprocessing genFail edOneOpen).2.jobs = [Status.IN_PROGRESS] :=
  ⟨rfl, rfl⟩

/-- Claim C5 (amended): in parallel mode the driver claims all
currently-open rows up front (marking each IN_PROGRESS) before any
evaluation, evaluates them across the worker pool, and commits results only
after the whole pool completes.  When every evaluation succeeds (with
outputs in known columns) the run returns normally and every claimed row
ends FINISHED, rows that were not OPEN being untouched; when every
evaluation raises, the exception propagates out of `run`, nothing is
committed, and the claimed rows are left IN_PROGRESS — not FINISHED or
ERROR. -/
theorem run_multiprocessing_amended (gen : DataGen) (ed : ExperimentData)
    (hgen : ∀ s r, gen s = Except.ok r → r.jobnumber = s.jobnumber) :
    (∀ i : Nat, ed.jobs[i]? = some Status.OPEN →
        (collectOpenAux (countOpen ed.jobs) ed []).1.jobs[i]? =
          some Status.IN_PROGRESS) ∧
    ((∀ s, ∃ r, gen s = Except.ok r ∧
        ∀ cv ∈ r.output_data, cv.1 ∈ ed.output_data.cols) →
      (run_multiprocessing gen ed).1 = Except.ok () ∧
      (∀ i : Nat, ed.jobs[i]? = some Status.OPEN →
          (run_multiprocessing gen ed).2.jobs[i]? = some Status.FINISHED) ∧
      (∀ (i : Nat) (st : Status), ed.jobs[i]? = some st → st ≠ Status.OPEN →
          (run_multiprocessing gen ed).2.jobs[i]? = some st)) ∧
    ((∀ s, ∃ e, gen s = Except.error e) →
      (∃ i : Nat, ed.jobs[i]? = some Status.OPEN) →
      (∃ e, (run_multiprocessing gen ed).1 = Except.error e) ∧
      (∀ i : Nat, ed.jobs[i]? = some Status.OPEN →
          (run_multiprocessing gen ed).2.jobs[i]? = some Status.IN_PROGRESS)) := by
  obtain ⟨hin, hout, hlen, hpres, hopen, samples, hsamp, hsampOpen, hsampCov⟩ :=
    collectOpenAux_spec (countOpen ed.jobs) ed [] rfl
  have hopts : (collectOpenAux (countOpen ed.jobs) ed []).2 = samples := by
    simpa using hsamp
  refine ⟨hopen, ?_, ?_⟩
  · intro hsucc
    obtain ⟨results, hpool⟩ :=
      poolStarmap_ok_of_all gen (fun s => (hsucc s).imp fun r hr => hr.1) samples
    obtain ⟨hmem, hmemrev⟩ := poolStarmap_ok_mem gen samples results hpool
    obtain ⟨edC, hcommit, hcolsC, hlenC, hfinC, hpresC⟩ := commitAll_spec results
      (collectOpenAux (countOpen ed.jobs) ed []).1 (by
        intro r hr cv hcv
        obtain ⟨s, hs, hgs⟩ := hmemrev r hr
        obtain ⟨r', hr', hcols'⟩ := hsucc s
        rw [hgs] at hr'
        injection hr' with hr'
        rw [hout]
        exact hcols' cv (hr' ▸ hcv))
    have hrun : run_multiprocessing gen ed = (Except.ok (), edC) := by
      simp only [run_multiprocessing, hopts, hpool]
      exact hcommit
    refine ⟨by rw [hrun], ?_, ?_⟩
    · intro i hio
      rw [hrun]
      obtain ⟨s, hs, hnum⟩ := hsampCov i hio
      obtain ⟨r, hrmem, hgs⟩ := hmem s hs
      have hrnum : r.jobnumber = i := by rw [hgen s r hgs, hnum]
      refine hfinC i ?_ ⟨r, hrmem, hrnum⟩
      rw [hlen]
      exact lt_of_getElem?_some hio
    · intro i st hst hne
      rw [hrun]
      have hnores : ∀ r ∈ results, r.jobnumber ≠ i := by
        intro r hr hc
        obtain ⟨s, hs, hgs⟩ := hmemrev r hr
        have hso := hsampOpen s hs
        rw [hgen s r hgs] at hc
        rw [hc, hst] at hso
        injection hso with hso
        exact hne hso
      rw [hpresC i hnores]
      exact hpres i st hst hne
  · rintro hfail ⟨i0, hi0⟩
    obtain ⟨s0, hs0, -⟩ := hsampCov i0 hi0
    have hne : samples ≠ [] := by
      intro hc
      rw [hc] at hs0
      simp at hs0
    obtain ⟨e, hpoolerr⟩ := poolStarmap_fail gen hfail samples hne
    have hrun : run_multiprocessing gen ed =
        (Except.error e, (collectOpenAux (countOpen ed.jobs) ed []).1) := by
      simp only [run_multiprocessing, hopts, hpoolerr]
    refine ⟨⟨e, by rw [hrun]⟩, ?_⟩
    intro i hio
    rw [hrun]
    exact hopen i hio

/-- Claim C5 (witness): the amended parallel-driver theorem applied to the
one-row open ledger and an evaluator that always succeeds. -/
theorem run_multiprocessing_amended_witness :
    (run_multiprocessing genNoOut edOneOpen).1 = Except.ok () ∧
    (run_multiprocessing genNoOut edOneOpen).2.jobs[0]? = some Status.FINISHED := by
  have h := run_multiprocessing_amended genNoOut edOneOpen (fun s r hc => by
    simp only [genNoOut] at hc
    injection hc with hc
    rw [← hc])
  have h2 := h.2.1 (fun s =>
    ⟨{ input_data := s.input_data, output_data := [], jobnumber := s.jobnumber },
      rfl, by simp⟩)
  exact ⟨h2.1, h2.2.1 0 (by decide)⟩

/-!  Cluster-mode invariant preservation. -/

theorem clusterInv_commit (M N : Nat) (S : ClusterSys) (w : Nat)
    (s : ExperimentSample) (d' : ExperimentData) (v : Status)
    (hv1 : v ≠ Status.OPEN) (hv2 : v ≠ Status.IN_PROGRESS)
    (hw : S.workers[w]? = some (WState.hasJob s))
    (hd : d'.jobs = S.disk.jobs.set s.jobnumber v)
    (hInv : ClusterInv M N S) :
    ClusterInv M N ⟨d', S.workers.set w WState.idle⟩ := by
  obtain ⟨wlen, dlen, holder_ip, uniq, ip_held, done_no_open⟩ := hInv
  have hwlt : w < S.workers.length := lt_of_getElem?_some hw
  have hip0 : S.disk.jobs[s.jobnumber]? = some Status.IN_PROGRESS := holder_ip w s hw
  have hilt : s.jobnumber < S.disk.jobs.length := lt_of_getElem?_some hip0
  refine ⟨by simpa using wlen, ?_, ?_, ?_, ?_, ?_⟩
  · show d'.jobs.length = M
    rw [hd, List.length_set]
    exact dlen
  · intro w1 s1 h1
    by_cases hww : w1 = w
    · rw [hww, List.getElem?_set_eq_of_lt _ hwlt] at h1
      exact absurd h1 (by simp)
    · rw [List.getElem?_set_ne (fun hcc => hww hcc.symm)] at h1
      have hip1 := holder_ip w1 s1 h1
      have hne : s.jobnumber ≠ s1.jobnumber := by
        intro hcc
        exact hww (uniq w1 w s1 s h1 hw hcc.symm)
      show d'.jobs[s1.jobnumber]? = some Status.IN_PROGRESS
      rw [hd, List.getElem?_set_ne hne]
      exact hip1
  · intro w1 w2 s1 s2 h1 h2 hnum
    by_cases h1w : w1 = w
    · rw [h1w, List.getElem?_set_eq_of_lt _ hwlt] at h1
      exact absurd h1 (by simp)
    · by_cases h2w : w2 = w
      · rw [h2w, List.getElem?_set_eq_of_lt _ hwlt] at h2
        exact absurd h2 (by simp)
      · rw [List.getElem?_set_ne (fun hcc => h1w hcc.symm)] at h1
        rw [List.getElem?_set_ne (fun hcc => h2w hcc.symm)] at h2
        exact uniq w1 w2 s1 s2 h1 h2 hnum
  · intro i hi
    by_cases hii : i = s.jobnumber
    · exfalso
      have hi' : d'.jobs[i]? = some Status.IN_PROGRESS := hi
      rw [hii, hd, List.getElem?_set_eq_of_lt _ hilt] at hi'
      injection hi' with hi'
      exact hv2 hi'
    · have hold : S.disk.jobs[i]? = some Status.IN_PROGRESS := by
        rw [hd, List.getElem?_set_ne (fun hcc => hii hcc.symm)] at hi
        exact hi
      obtain ⟨w1, s1, hw1, hs1⟩ := ip_held i hold
      have hww : w1 ≠ w := by
        intro hcc
        rw [hcc, hw] at hw1
        injection hw1 with hw1
        injection hw1 with hw1
        exact hii (by rw [← hs1, ← hw1])
      refine ⟨w1, s1, ?_, hs1⟩
      rw [List.getElem?_set_ne (fun hcc => hww hcc.symm)]
      exact hw1
  · rintro ⟨w1, hw1⟩ i
    by_cases hww : w1 = w
    · rw [hww, List.getElem?_set_eq_of_lt _ hwlt] at hw1
      exact absurd hw1 (by simp)
    · rw [List.getElem?_set_ne (fun hcc => hww hcc.symm)] at hw1
      have hno := done_no_open ⟨w1, hw1⟩
      by_cases hii : i = s.jobnumber
      · rw [hii]
        show d'.jobs[s.jobnumber]? ≠ some Status.OPEN
        rw [hd, List.getElem?_set_eq_of_lt _ hilt]
        intro hc
        injection hc with hc
        exact hv1 hc
      · show d'.jobs[i]? ≠ some Status.OPEN
        rw [hd, List.getElem?_set_ne (fun hcc => hii hcc.symm)]
        exact hno i

theorem clusterInv_step (gen : DataGen)
    (hgen : ∀ s r, gen s = Except.ok r → r.jobnumber = s.jobnumber)
    (M N : Nat) (S S' : ClusterSys) (hstep : ClusterStep gen S S')
    (hInv : ClusterInv M N S) : ClusterInv M N S' := by
  cases hstep with
  | claim w s ed' hw hc =>
    obtain ⟨wlen, dlen, holder_ip, uniq, ip_held, done_no_open⟩ := hInv
    obtain ⟨hopen, hjobs1, -, -, -⟩ := access_open_job_data_ok S.disk s ed' hc
    have hwlt : w < S.workers.length := lt_of_getElem?_some hw
    have hilt : s.jobnumber < S.disk.jobs.length := lt_of_getElem?_some hopen
    refine ⟨by simpa using wlen, ?_, ?_, ?_, ?_, ?_⟩
    · show ed'.jobs.length = M
      rw [hjobs1, List.length_set]
      exact dlen
    · intro w1 s1 h1
      by_cases hww : w1 = w
      · rw [hww, List.getElem?_set_eq_of_lt _ hwlt] at h1
        injection h1 with h1
        injection h1 with h1
        subst h1
        show ed'.jobs[s.jobnumber]? = some Status.IN_PROGRESS
        rw [hjobs1]
        exact List.getElem?_set_eq_of_lt _ hilt
      · rw [List.getElem?_set_ne (fun hcc => hww hcc.symm)] at h1
        have hip := holder_ip w1 s1 h1
        have hne : s.jobnumber ≠ s1.jobnumber := by
          intro hcc
          rw [← hcc, hopen] at hip
          exact absurd hip (by simp)
        show ed'.jobs[s1.jobnumber]? = some Status.IN_PROGRESS
        rw [hjobs1, List.getElem?_set_ne hne]
        exact hip
    · intro w1 w2 s1 s2 h1 h2 hnum
      by_cases h1w : w1 = w
      · by_cases h2w : w2 = w
        · rw [h1w, h2w]
        · rw [h1w, List.getElem?_set_eq_of_lt _ hwlt] at h1
          injection h1 with h1
          injection h1 with h1
          rw [List.getElem?_set_ne (fun hcc => h2w hcc.symm)] at h2
          have hip := holder_ip w2 s2 h2
          rw [← hnum, ← h1, hopen] at hip
          exact absurd hip (by simp)
      · by_cases h2w : w2 = w
        · rw [h2w, List.getElem?_set_eq_of_lt _ hwlt] at h2
          injection h2 with h2
          injection h2 with h2
          rw [List.getElem?_set_ne (fun hcc => h1w hcc.symm)] at h1
          have hip := holder_ip w1 s1 h1
          rw [hnum, ← h2, hopen] at hip
          exact absurd hip (by simp)
        · rw [List.getElem?_set_ne (fun hcc => h1w hcc.symm)] at h1
          rw [List.getElem?_set_ne (fun hcc => h2w hcc.symm)] at h2
          exact uniq w1 w2 s1 s2 h1 h2 hnum
    · intro i hi
      by_cases hii : i = s.jobnumber
      · refine ⟨w, s, ?_, hii.symm⟩
        rw [List.getElem?_set_eq_of_lt _ hwlt]
      · have hold : S.disk.jobs[i]? = some Status.IN_PROGRESS := by
          show S.disk.jobs[i]? = some Status.IN_PROGRESS
          have hi' : ed'.jobs[i]? = some Status.IN_PROGRESS := hi
          rw [hjobs1, List.getElem?_set_ne (fun hcc => hii hcc.symm)] at hi'
          exact hi'
        obtain ⟨w1, s1, hw1, hs1⟩ := ip_held i hold
        have hww : w1 ≠ w := by
          intro hcc
          rw [hcc, hw] at hw1
          exact absurd hw1 (by simp)
        refine ⟨w1, s1, ?_, hs1⟩
        rw [List.getElem?_set_ne (fun hcc => hww hcc.symm)]
        exact hw1
    · rintro ⟨w1, hw1⟩ i
      by_cases hww : w1 = w
      · rw [hww, List.getElem?_set_eq_of_lt _ hwlt] at hw1
        exact absurd hw1 (by simp)
      · rw [List.getElem?_set_ne (fun hcc => hww hcc.symm)] at hw1
        exact absurd hopen (done_no_open ⟨w1, hw1⟩ s.jobnumber)
  | noJobs w e ed' hw hc =>
    obtain ⟨wlen, dlen, holder_ip, uniq, ip_held, done_no_open⟩ := hInv
    obtain ⟨-, -, hno⟩ := access_open_job_data_err S.disk e ed' hc
    have hwlt : w < S.workers.length := lt_of_getElem?_some hw
    refine ⟨by simpa using wlen, dlen, ?_, ?_, ?_, fun _ => hno⟩
    · intro w1 s1 h1
      by_cases hww : w1 = w
      · rw [hww, List.getElem?_set_eq_of_lt _ hwlt] at h1
        exact absurd h1 (by simp)
      · rw [List.getElem?_set_ne (fun hcc => hww hcc.symm)] at h1
        exact holder_ip w1 s1 h1
    · intro w1 w2 s1 s2 h1 h2 hnum
      by_cases h1w : w1 = w
      · rw [h1w, List.getElem?_set_eq_of_lt _ hwlt] at h1
        exact absurd h1 (by simp)
      · by_cases h2w : w2 = w
        · rw [h2w, List.getElem?_set_eq_of_lt _ hwlt] at h2
          exact absurd h2 (by simp)
        · rw [List.getElem?_set_ne (fun hcc => h1w hcc.symm)] at h1
          rw [List.getElem?_set_ne (fun hcc => h2w hcc.symm)] at h2
          exact uniq w1 w2 s1 s2 h1 h2 hnum
    · intro i hi
      obtain ⟨w1, s1, hw1, hs1⟩ := ip_held i hi
      have hww : w1 ≠ w := by
        intro hcc
        rw [hcc, hw] at hw1
        exact absurd hw1 (by simp)
      refine ⟨w1, s1, ?_, hs1⟩
      rw [List.getElem?_set_ne (fun hcc => hww hcc.symm)]
      exact hw1
  | commitOk w s r u ed' hw hg hset =>
    have hnum := hgen s r hg
    obtain ⟨hj, -⟩ := set_experiment_sample_ok_jobs S.disk r u ed' hset
    refine clusterInv_commit M N S w s ed' Status.FINISHED (by simp) (by simp) hw ?_ hInv
    rw [hj, hnum]
  | commitKeyErr w s r e ed' hw hg hset =>
    exact clusterInv_commit M N S w s (set_error S.disk s.jobnumber) Status.ERROR
      (by simp) (by simp) hw rfl hInv
  | commitGenErr w s e hw hg =>
    exact clusterInv_commit M N S w s (set_error S.disk s.jobnumber) Status.ERROR
      (by simp) (by simp) hw rfl hInv

theorem clusterInv_reach (gen : DataGen)
    (hgen : ∀ s r, gen s = Except.ok r → r.jobnumber = s.jobnumber)
    (M N : Nat) (S0 S : ClusterSys) (h0 : ClusterInv M N S0)
    (hreach : ClusterReach gen S0 S) : ClusterInv M N S := by
  induction hreach with
  | refl => exact h0
  | tail hr hs ih => exact clusterInv_step gen hgen M N _ _ hs ih

theorem clusterInv_init (M N : Nat) (ed0 : ExperimentData)
    (hM : ed0.jobs.length = M) (hopen : ∀ st ∈ ed0.jobs, st = Status.OPEN) :
    ClusterInv M N ⟨ed0, List.replicate N WState.idle⟩ := by
  have hnoholder : ∀ (w : Nat) (s : ExperimentSample),
      (List.replicate N WState.idle)[w]? ≠ some (WState.hasJob s) := by
    intro w s h
    rw [List.getElem?_replicate] at h
    by_cases hw : w < N
    · rw [if_pos hw] at h
      exact absurd h (by simp)
    · rw [if_neg hw] at h
      exact absurd h (by simp)
  have hnodone : ∀ w : Nat, (List.replicate N WState.idle)[w]? ≠ some WState.done := by
    intro w h
    rw [List.getElem?_replicate] at h
    by_cases hw : w < N
    · rw [if_pos hw] at h
      exact absurd h (by simp)
    · rw [if_neg hw] at h
      exact absurd h (by simp)
  refine ⟨List.length_replicate N WState.idle, hM, ?_, ?_, ?_, ?_⟩
  · intro w s h
    exact absurd h (hnoholder w s)
  · intro w1 w2 s1 s2 h1 h2 hnum
    exact absurd h1 (hnoholder w1 s1)
  · intro i hi
    have hmem := hopen Status.IN_PROGRESS (List.getElem?_mem hi)
    exact absurd hmem (by simp)
  · rintro ⟨w, hw⟩
    exact absurd hw (hnodone w)

/-- Claim C9: under the locking discipline — every claim and every
commit/fail is an atomic read-modify-write of the persisted ledger — no row
is ever held by two drivers simultaneously in any reachable state, and when
N (at least one) sequential drivers started on a ledger of M all-OPEN rows
have all observed `NoOpenJobs` and stopped, the disk ledger still has
exactly M rows, all FINISHED or ERROR and none IN_PROGRESS or OPEN,
regardless of the interleaving. -/
theorem cluster_lock_invariant (gen : DataGen)
    (hgen : ∀ s r, gen s = Except.ok r → r.jobnumber = s.jobnumber)
    (M N : Nat) (hN : 0 < N) (ed0 : ExperimentData)
    (hM : ed0.jobs.length = M) (hopen : ∀ st ∈ ed0.jobs, st = Status.OPEN)
    (S : ClusterSys)
    (hreach : ClusterReach gen ⟨ed0, List.replicate N WState.idle⟩ S) :
    (∀ (w w' : Nat) (s s' : ExperimentSample),
        S.workers[w]? = some (WState.hasJob s) →
        S.workers[w']? = some (WState.hasJob s') →
        s.jobnumber = s'.jobnumber → w = w') ∧
    ((∀ w ∈ S.workers, w = WState.done) →
        S.disk.jobs.length = M ∧
        ∀ st ∈ S.disk.jobs, st = Status.FINISHED ∨ st = Status.ERROR) := by
  obtain ⟨wlen, dlen, holder_ip, uniq, ip_held, done_no_open⟩ :=
    clusterInv_reach gen hgen M N _ S (clusterInv_init M N ed0 hM hopen) hreach
  refine ⟨uniq, ?_⟩
  intro hdone
  refine ⟨dlen, ?_⟩
  intro st hst
  obtain ⟨i, hilt, hieq⟩ := List.getElem_of_mem hst
  have hi : S.disk.jobs[i]? = some st := by
    rw [List.getElem?_eq_getElem hilt, hieq]
  have h0lt : 0 < S.workers.length := by
    rw [wlen]
    exact hN
  have hw0 : S.workers[0]? = some WState.done := by
    rw [List.getElem?_eq_getElem h0lt, hdone _ (List.getElem_mem h0lt)]
  have hno := done_no_open ⟨0, hw0⟩
  cases st with
  | OPEN => exact absurd hi (hno i)
  | IN_PROGRESS =>
    obtain ⟨w1, s1, hw1, -⟩ := ip_held i hi
    have hd1 := hdone _ (List.getElem?_mem hw1)
    exact absurd hd1 (by simp)
  | FINISHED => exact Or.inl rfl
  | ERROR => exact Or.inr rfl

/-- Claim C9 (witness): one driver, one open row — claim, successful
commit, then `NoOpenJobs`; the final disk ledger has its single row
FINISHED, none IN_PROGRESS. -/
theorem cluster_lock_invariant_witness :
    (0 : Nat) < 1 ∧
    ((⟨edOneFinished, [WState.done]⟩ : ClusterSys).disk.jobs.length = 1 ∧
      ∀ st ∈ (⟨edOneFinished, [WState.done]⟩ : ClusterSys).disk.jobs,
        st = Status.FINISHED ∨ st = Status.ERROR) := by
  have hgen : ∀ s r, genOk s = Except.ok r → r.jobnumber = s.jobnumber := by
    intro s r hc
    simp only [genOk] at hc
    injection hc with hc
    rw [hc]
  have step1 : ClusterStep genOk ⟨edOneOpen, [WState.idle]⟩
      ⟨edStranded, [WState.hasJob sampleOne]⟩ :=
    ClusterStep.claim ⟨edOneOpen, [WState.idle]⟩ 0 sampleOne edStranded
      (by rfl) (by rfl)
  have step2 : ClusterStep genOk ⟨edStranded, [WState.hasJob sampleOne]⟩
      ⟨edOneFinished, [WState.idle]⟩ :=
    ClusterStep.commitOk ⟨edStranded, [WState.hasJob sampleOne]⟩ 0 sampleOne
      sampleOne () edOneFinished (by rfl) (by rfl) (by rfl)
  have step3 : ClusterStep genOk ⟨edOneFinished, [WState.idle]⟩
      ⟨edOneFinished, [WState.done]⟩ :=
    ClusterStep.noJobs ⟨edOneFinished, [WState.idle]⟩ 0 EDErr.noOpenJobs
      edOneFinished (by rfl) (by rfl)
  have hreach : ClusterReach genOk ⟨edOneOpen, [WState.idle]⟩
      ⟨edOneFinished, [WState.done]⟩ :=
    Relation.ReflTransGen.tail
      (Relation.ReflTransGen.tail
        (Relation.ReflTransGen.tail Relation.ReflTransGen.refl step1) step2) step3
  have h := cluster_lock_invariant genOk hgen 1 1 (by decide) edOneOpen
    (by decide) (by decide) ⟨edOneFinished, [WState.done]⟩ hreach
  exact ⟨by decide, h.2 (by decide)⟩
